import Mathlib

/-!
Verification development for the core planning engine (context diff,
macro evaluation, incremental time filtering, cron normalization).

The definitions below are shallow embeddings of the Python source files
sqlmesh/core/context_diff.py, sqlmesh/core/macros.py and
sqlmesh/core/model.py.  Data types that the source imports from modules
not present in this tree (Snapshot, SnapshotDataVersion, Environment,
the state reader) are modelled from the specification, as marked.
-/

namespace SqlMesh

/-- Modelled from the spec: fingerprint triple
(data_hash, metadata_hash, parent_data_hash); the hash digests are
opaque values, modelled as natural numbers. -/
structure Fingerprint where
  dataHash : Nat
  metadataHash : Nat
  parentDataHash : Nat
deriving DecidableEq, Repr

/-- Modelled from the spec: a data version entry as held in
previous_versions and indirect_versions; carries the physical version
key and the data hash used by data_hash_matches. -/
structure SnapshotDataVersion where
  dataHash : Nat
  version : Nat
deriving DecidableEq, Repr

/-- Modelled from the spec: snapshot_id = (name, fingerprint). -/
structure SnapshotId where
  name : String
  fingerprint : Fingerprint
deriving DecidableEq, Repr

/-- Modelled from the spec: a Snapshot binds a model name and
fingerprint to a physical version, the ordered list of previous
versions, the indirect-version history per child name, and the
creation timestamp. -/
structure Snapshot where
  name : String
  fingerprint : Fingerprint
  version : Nat
  previousVersions : List SnapshotDataVersion
  indirectVersions : List (String × List SnapshotDataVersion)
  createdTs : Nat
deriving DecidableEq, Repr

/-- Modelled from the spec: the snapshot identity (name, fingerprint). -/
def Snapshot.snapshotId (s : Snapshot) : SnapshotId :=
  ⟨s.name, s.fingerprint⟩

/-- Modelled from the spec: the data version of a snapshot, pairing its
data hash with its current physical version. -/
def Snapshot.dataVersion (s : Snapshot) : SnapshotDataVersion :=
  ⟨s.fingerprint.dataHash, s.version⟩

/-- Modelled from the spec: the head of previous_versions (the most
recent prior version), when present. -/
def Snapshot.previousVersion (s : Snapshot) : Option SnapshotDataVersion :=
  s.previousVersions.getLast?

/-- Modelled from the spec: data_hash_matches compares only the
data_hash component. -/
def Snapshot.dataHashMatches (s : Snapshot) (v : SnapshotDataVersion) : Bool :=
  s.fingerprint.dataHash == v.dataHash

/-- Modelled from the spec: set_version assigns the given physical
version; with no argument the version is reset to the data portion of
the fingerprint, which is the fresh physical-table identity of a
never-before-seen snapshot. -/
def Snapshot.setVersion (s : Snapshot) (v : Option Nat) : Snapshot :=
  { s with version := v.getD s.fingerprint.dataHash }

/-- Modelled from the spec: the per-environment snapshot record
(SnapshotTableInfo) holding name, fingerprint, version and the
previous-version history. -/
structure SnapshotTableInfo where
  name : String
  fingerprint : Fingerprint
  version : Nat
  previousVersions : List SnapshotDataVersion
deriving DecidableEq, Repr

/-- Modelled from the spec: identity of the stored snapshot record. -/
def SnapshotTableInfo.snapshotId (i : SnapshotTableInfo) : SnapshotId :=
  ⟨i.name, i.fingerprint⟩

/-- Modelled from the spec: data version of the stored record. -/
def SnapshotTableInfo.dataVersion (i : SnapshotTableInfo) : SnapshotDataVersion :=
  ⟨i.fingerprint.dataHash, i.version⟩

/-- Modelled from the spec: all_versions is previous_versions followed
by the current data version. -/
def SnapshotTableInfo.allVersions (i : SnapshotTableInfo) : List SnapshotDataVersion :=
  i.previousVersions ++ [i.dataVersion]

/-- Modelled from the spec: an environment is a named view over a list
of snapshot records, with a plan id. -/
structure Environment where
  name : String
  snapshots : List SnapshotTableInfo
  planId : String
deriving DecidableEq, Repr

/-- Modelled from the spec: the state reader, as pure data: the stored
environments by name and the global store of persisted snapshots. -/
structure StateReader where
  environments : List (String × Environment)
  snapshotStore : List Snapshot
deriving DecidableEq, Repr

/-- Modelled from the spec: get_environment(name). -/
def StateReader.getEnvironment (st : StateReader) (name : String) : Option Environment :=
  (st.environments.find? (fun p => p.1 == name)).map Prod.snd

/-- Modelled from the spec: lookup of a persisted snapshot by id, as
performed through get_snapshots. -/
def StateReader.getSnapshot (st : StateReader) (id : SnapshotId) : Option Snapshot :=
  st.snapshotStore.find? (fun s => s.snapshotId == id)

/-- Modelled from the spec: push_snapshots appends the given snapshots
to the persistent store. -/
def StateReader.pushSnapshots (st : StateReader) (snaps : List Snapshot) : StateReader :=
  { st with snapshotStore := st.snapshotStore ++ snaps }

/-- Association-list lookup by string key, first match. -/
def lookup? {α : Type} (l : List (String × α)) (k : String) : Option α :=
  (l.find? (fun p => p.1 == k)).map Prod.snd

/-- Fallible left fold in the Option monad (a loop that may raise). -/
def optionFoldl {α β : Type} (f : β → α → Option β) : β → List α → Option β
  | acc, [] => some acc
  | acc, x :: xs =>
    match f acc x with
    | none => none
    | some acc₁ => optionFoldl f acc₁ xs

/-- Fallible map in the Option monad (a comprehension that may raise). -/
def optionMapM {α β : Type} (f : α → Option β) : List α → Option (List β)
  | [] => some []
  | x :: xs =>
    match f x, optionMapM f xs with
    | some y, some ys => some (y :: ys)
    | _, _ => none

/-- ContextDiff record, from context_diff.py lines 25 to 45.  Sets and
dicts are embedded as lists in construction order. -/
structure ContextDiff where
  environment : String
  added : List String
  removed : List String
  modifiedSnapshots : List (String × Snapshot × Snapshot)
  snapshots : List (String × Snapshot)
  newSnapshots : List Snapshot
  previousPlanId : Option String
deriving DecidableEq, Repr

namespace ContextDiff

/-- The existing_info map of ContextDiff.create (line 70): environment
snapshot records keyed by name. -/
def existingInfo (st : StateReader) (environment : String) :
    List (String × SnapshotTableInfo) :=
  (((st.getEnvironment environment).map Environment.snapshots).getD []).map
    (fun i => (i.name, i))

/-- added = current_models minus existing_models (line 74). -/
def addedNames (st : StateReader) (environment : String)
    (snapshots : List (String × Snapshot)) : List String :=
  (snapshots.map Prod.fst).filter
    (fun n => !((existingInfo st environment).map Prod.fst).contains n)

/-- removed = existing_models minus current_models (line 73). -/
def removedNames (st : StateReader) (environment : String)
    (snapshots : List (String × Snapshot)) : List String :=
  ((existingInfo st environment).map Prod.fst).filter
    (fun n => !(snapshots.map Prod.fst).contains n)

/-- modified_info (lines 75 to 80): for each local snapshot not added
whose fingerprint differs from the stored record, the stored record. -/
def modifiedInfo (st : StateReader) (environment : String)
    (snapshots : List (String × Snapshot)) : List (String × SnapshotTableInfo) :=
  snapshots.filterMap (fun p =>
    if (addedNames st environment snapshots).contains p.1 then none
    else
      match lookup? (existingInfo st environment) p.1 with
      | some info => if p.2.fingerprint ≠ info.fingerprint then some (p.1, info) else none
      | none => none)

/-- Replace the value stored at a key of an association list. -/
def setEntry {α : Type} (l : List (String × α)) (k : String) (v : α) :
    List (String × α) :=
  l.map (fun p => if p.1 == k then (k, v) else p)

/-- The snapshot_remote_versions update of lines 102 to 111: for each
child of indirect_versions, record (versions, created_ts) if the child
is absent or the recorded timestamp is older. -/
def updateRemoteVersions
    (remote : List (String × List SnapshotDataVersion × Nat))
    (indirect : List (String × List SnapshotDataVersion)) (createdTs : Nat) :
    List (String × List SnapshotDataVersion × Nat) :=
  indirect.foldl (fun acc ci =>
    match lookup? acc ci.1 with
    | none => acc ++ [(ci.1, ci.2, createdTs)]
    | some pr => if pr.2 < createdTs then setEntry acc ci.1 (ci.2, createdTs) else acc)
    remote

/-- Accumulator of the main loop of ContextDiff.create (lines 87 to
118).  The boolean flags record which entries alias a snapshot of
new_snapshots (the objects mutated by the second loop). -/
structure DiffAcc where
  merged : List (String × Snapshot × Bool)
  modifiedPairs : List (String × (Snapshot × Snapshot) × Bool)
  newSnaps : List Snapshot
  remote : List (String × List SnapshotDataVersion × Nat)
deriving DecidableEq, Repr

/-- One iteration of the loop of lines 94 to 118.  Returns none where
the Python code would raise a KeyError on the stored lookup of the
modified record. -/
def diffStep (st : StateReader) (mi : List (String × SnapshotTableInfo))
    (acc : DiffAcc) (p : String × Snapshot) : Option DiffAcc :=
  match st.getSnapshot p.2.snapshotId with
  | some existing =>
    match lookup? mi p.1 with
    | none => some { acc with merged := acc.merged ++ [(p.1, existing, false)] }
    | some minfo =>
      match st.getSnapshot minfo.snapshotId with
      | none => none
      | some old =>
        some { acc with
          merged := acc.merged ++ [(p.1, existing, false)],
          modifiedPairs := acc.modifiedPairs ++ [(p.1, (existing, old), false)],
          remote := updateRemoteVersions acc.remote existing.indirectVersions
            existing.createdTs }
  | none =>
    match lookup? mi p.1 with
    | none =>
      some { acc with
        merged := acc.merged ++ [(p.1, p.2, true)],
        newSnaps := acc.newSnaps ++ [p.2] }
    | some minfo =>
      match st.getSnapshot minfo.snapshotId with
      | none => none
      | some old =>
        some { acc with
          merged := acc.merged ++
            [(p.1, { p.2 with previousVersions := minfo.allVersions }, true)],
          modifiedPairs := acc.modifiedPairs ++
            [(p.1, ({ p.2 with previousVersions := minfo.allVersions }, old), true)],
          newSnaps := acc.newSnaps ++
            [{ p.2 with previousVersions := minfo.allVersions }] }

/-- The first loop of ContextDiff.create over all local snapshots. -/
def pass1 (st : StateReader) (environment : String)
    (snapshots : List (String × Snapshot)) : Option DiffAcc :=
  optionFoldl (diffStep st (modifiedInfo st environment snapshots))
    ⟨[], [], [], []⟩ snapshots

/-- The indirect-change version-reuse assignment of lines 120 to 137,
applied to one snapshot of new_snapshots.  Returns none where the
Python code would raise an IndexError taking the last element of an
empty remote version list. -/
def adjustVersion (remote : List (String × List SnapshotDataVersion × Nat))
    (snapshot : Snapshot) : Option Snapshot :=
  match lookup? remote snapshot.name, snapshot.previousVersion with
  | some rv, some prev =>
    if snapshot.dataHashMatches prev then
      match rv.1.getLast? with
      | none => none
      | some remoteLast =>
        let remoteHead := remoteLast.version
        let localHead := prev.version
        if (snapshot.previousVersions.map SnapshotDataVersion.version).contains
            remoteHead then
          some (snapshot.setVersion (some localHead))
        else if (rv.1.map SnapshotDataVersion.version).contains localHead then
          some (snapshot.setVersion (some remoteHead))
        else
          some (snapshot.setVersion none)
    else some snapshot
  | _, _ => some snapshot

/-- The indirect-version records accumulated by the first loop
(snapshot_remote_versions at line 120). -/
def remoteIndirect (st : StateReader) (environment : String)
    (snapshots : List (String × Snapshot)) :
    Option (List (String × List SnapshotDataVersion × Nat)) :=
  (pass1 st environment snapshots).map DiffAcc.remote

/-- ContextDiff.create (context_diff.py lines 47 to 147), with the
environment given by name.  The second loop mutates the snapshots of
new_snapshots in place; entries of merged and modified aliasing those
objects are flagged and receive the same version adjustment. -/
def create (environment : String) (snapshots : List (String × Snapshot))
    (st : StateReader) : Option ContextDiff := do
  let acc ← pass1 st environment snapshots
  let newSnapshots ← optionMapM (adjustVersion acc.remote) acc.newSnaps
  let merged ← optionMapM (fun e =>
    if e.2.2 then (adjustVersion acc.remote e.2.1).map (fun s => (e.1, s))
    else some (e.1, e.2.1)) acc.merged
  let modifiedSnapshots ← optionMapM (fun e =>
    if e.2.2 then (adjustVersion acc.remote e.2.1.1).map (fun s => (e.1, s, e.2.1.2))
    else some (e.1, e.2.1.1, e.2.1.2)) acc.modifiedPairs
  some
    { environment := environment
      added := addedNames st environment snapshots
      removed := removedNames st environment snapshots
      modifiedSnapshots := modifiedSnapshots
      snapshots := merged
      newSnapshots := newSnapshots
      previousPlanId := (st.getEnvironment environment).map Environment.planId }

/-- Accumulator of the heap-passing rendering of ContextDiff.create.
The heap models Python object identity: references are heap indices and
in-place mutation is heap update, so the frame property of create over
the caller objects can be stated. -/
structure HeapDiffAcc where
  heap : List Snapshot
  merged : List (String × Nat)
  modifiedPairs : List (String × Nat × Nat)
  newRefs : List Nat
  rem : List (String × List SnapshotDataVersion × Nat)
deriving DecidableEq, Repr

/-- One iteration of the loop of lines 94 to 118 in heap-passing form:
existing.copy() (line 99) and snapshot.copy() (line 113) allocate fresh
cells, and the previous_versions assignment of line 117 writes to the
freshly allocated copy only.  Objects materialized by the state reader
are also allocated so that every value lives in the heap. -/
def heapDiffStep (st : StateReader) (mi : List (String × SnapshotTableInfo))
    (acc : HeapDiffAcc) (p : String × Nat) : Option HeapDiffAcc :=
  match acc.heap[p.2]? with
  | none => none
  | some snapshot =>
    match st.getSnapshot snapshot.snapshotId with
    | some existing =>
      match lookup? mi p.1 with
      | none =>
        some { acc with
          heap := acc.heap ++ [existing, existing],
          merged := acc.merged ++ [(p.1, acc.heap.length + 1)] }
      | some minfo =>
        match st.getSnapshot minfo.snapshotId with
        | none => none
        | some old =>
          some { acc with
            heap := acc.heap ++ [existing, existing, old],
            merged := acc.merged ++ [(p.1, acc.heap.length + 1)],
            modifiedPairs := acc.modifiedPairs ++
              [(p.1, acc.heap.length, acc.heap.length + 2)],
            rem := updateRemoteVersions acc.rem existing.indirectVersions
              existing.createdTs }
    | none =>
      match lookup? mi p.1 with
      | none =>
        some { acc with
          heap := acc.heap ++ [snapshot],
          merged := acc.merged ++ [(p.1, acc.heap.length)],
          newRefs := acc.newRefs ++ [acc.heap.length] }
      | some minfo =>
        match st.getSnapshot minfo.snapshotId with
        | none => none
        | some old =>
          some { acc with
            heap := ((acc.heap ++ [snapshot]).set acc.heap.length
              { snapshot with previousVersions := minfo.allVersions }) ++ [old],
            merged := acc.merged ++ [(p.1, acc.heap.length)],
            modifiedPairs := acc.modifiedPairs ++
              [(p.1, acc.heap.length, acc.heap.length + 1)],
            newRefs := acc.newRefs ++ [acc.heap.length] }

/-- The second loop of ContextDiff.create (lines 120 to 137) in
heap-passing form: each snapshot of new_snapshots is mutated in place
through its reference. -/
def heapAdjustLoop (rem : List (String × List SnapshotDataVersion × Nat)) :
    List Snapshot → List Nat → Option (List Snapshot)
  | heap, [] => some heap
  | heap, r :: rs =>
    match heap[r]? with
    | none => none
    | some s =>
      match adjustVersion rem s with
      | none => none
      | some s' => heapAdjustLoop rem (heap.set r s') rs

/-- ContextDiff.create in heap-passing form.  The snapshots argument
maps names to references into the caller heap; the result is the final
heap together with the accumulator (merged, modified and new snapshots
as references). -/
def createHeap (environment : String) (heap : List Snapshot)
    (snapshots : List (String × Nat)) (st : StateReader) :
    Option (List Snapshot × HeapDiffAcc) := do
  let resolved ← optionMapM
    (fun p => (heap[p.2]?).map (fun s => (p.1, s))) snapshots
  let acc ← optionFoldl
    (heapDiffStep st (modifiedInfo st environment resolved))
    ⟨heap, [], [], [], []⟩ snapshots
  let heap' ← heapAdjustLoop acc.rem acc.heap acc.newRefs
  some (heap', acc)

end ContextDiff

/-! ### Concrete scenario used by the witnesses: model a is directly
modified and already persisted, model b is indirectly modified (same
data hash, new fingerprint) and not yet persisted. -/

/-- Local snapshot of model a. -/
def wA : Snapshot := ⟨"a", ⟨10, 0, 0⟩, 10, [], [], 0⟩

/-- Persisted snapshot matching the local snapshot of a, carrying an
indirect-version history for child b. -/
def wAex : Snapshot := ⟨"a", ⟨10, 0, 0⟩, 10, [], [("b", [⟨20, 20⟩, ⟨20, 22⟩])], 5⟩

/-- Persisted snapshot of the remote (older) version of a. -/
def wAold : Snapshot := ⟨"a", ⟨11, 0, 0⟩, 11, [], [], 1⟩

/-- Local snapshot of model b (data hash 20, unchanged). -/
def wB : Snapshot := ⟨"b", ⟨20, 0, 0⟩, 20, [], [], 0⟩

/-- Persisted snapshot of the remote version of b. -/
def wBold : Snapshot := ⟨"b", ⟨20, 9, 9⟩, 21, [⟨20, 20⟩], [], 2⟩

/-- Environment record of the remote version of a. -/
def wInfoA : SnapshotTableInfo := ⟨"a", ⟨11, 0, 0⟩, 11, []⟩

/-- Environment record of the remote version of b. -/
def wInfoB : SnapshotTableInfo := ⟨"b", ⟨20, 9, 9⟩, 21, [⟨20, 20⟩]⟩

/-- The remote environment. -/
def wEnv : Environment := ⟨"env", [wInfoA, wInfoB], "p0"⟩

/-- The state reader of the scenario. -/
def wSt : StateReader := ⟨[("env", wEnv)], [wAex, wAold, wBold]⟩

/-- The local snapshots argument. -/
def wSnaps : List (String × Snapshot) := [("a", wA), ("b", wB)]

/-- The new snapshot of b as produced by the diff: previous versions
installed from the remote record, version freshly reset (histories
diverged). -/
def wBnew : Snapshot := ⟨"b", ⟨20, 0, 0⟩, 20, [⟨20, 20⟩, ⟨20, 21⟩], [], 0⟩

/-- The ContextDiff produced by the scenario. -/
def wDiff : ContextDiff :=
  ⟨"env", [], [], [("a", wAex, wAold), ("b", wBnew, wBold)],
    [("a", wAex), ("b", wBnew)], [wBnew], some "p0"⟩

/-- The indirect-version records accumulated in the scenario. -/
def wRemote : List (String × List SnapshotDataVersion × Nat) :=
  [("b", ([⟨20, 20⟩, ⟨20, 22⟩], 5))]

/-- Empty state reader for the added-model witness. -/
def wStEmpty : StateReader := ⟨[], []⟩

/-- Single-model local snapshots for the added-model witness. -/
def wSnapsA : List (String × Snapshot) := [("a", wA)]

/-- The ContextDiff produced on the empty state. -/
def wDiffA : ContextDiff := ⟨"e", ["a"], [], [], [("a", wA)], [wA], none⟩

/-! ## Macro evaluator (macros.py) and SQL AST

The SQL AST is a shallow embedding of the sqlglot expression nodes the
core manipulates, together with the macro node variants of dialect.py
(MacroVar, MacroFunc, MacroDef).  MacroSQL, MacroStrReplace and Lambda
(with the EACH, REDUCE and FILTER combinators) are outside this model.
-/

/-- Classification of a sqlglot data type (`DataType.this` membership
in TEXT_TYPES, NUMERIC_TYPES or TEMPORAL_TYPES). -/
inductive SqlType
  | text
  | numeric
  | temporal
  | other
deriving DecidableEq, Repr

/-- SQL AST nodes.  Clause arguments of a select mirror the sqlglot
`args` slots: each optional slot holds either the native clause node or
a macro node absorbed by the parser (dialect.py lines 104 to 188). -/
inductive Exp
  | boolean (b : Bool)
  | numLit (v : String)
  | strLit (s : String)
  | ident (name : String)
  | column (name : String)
  | table (name : String)
  | aliasE (e : Exp) (name : String)
  | castE (e : Exp) (ty : SqlType)
  | between (e lo hi : Exp)
  | andE (a b : Exp)
  | gt (a b : Exp)
  | whereClause (e : Exp)
  | groupClause (es : List Exp)
  | havingClause (e : Exp)
  | orderClause (es : List Exp)
  | joinClause (e : Exp)
  | withClause (es : List Exp)
  | subquery (q : Exp) (name : String)
  | unionE (l r : Exp)
  | selectE (projections : List Exp) (fromTable : Option Exp)
      (whereArg : Option Exp) (groupArg : Option Exp)
      (havingArg : Option Exp) (orderArg : Option Exp)
  | macroVar (name : String)
  | macroFunc (name : String) (args : List Exp)
  | macroDef (name : String) (e : Exp)

/-- Modelled from the spec (section 7): error kinds are distinct
variants.  The sqlmeshError variant is the base error type, raised
directly by MacroEvaluator.send; macroEvalError wraps macro evaluation
failures. -/
inductive SqlMeshError
  | sqlmeshError (msg : String)
  | macroEvalError (msg : String)
deriving DecidableEq, Repr

/-- The ASCII apostrophe character, as used in source error messages. -/
def squote : String := String.mk [Char.ofNat 39]

/-- ASCII upper-casing of a character. -/
def upperChar (c : Char) : Char :=
  if c.isLower then Char.ofNat (c.toNat - 32) else c

/-- ASCII upper-casing of a string. -/
def upperString (s : String) : String := String.mk (s.data.map upperChar)

/-- normalize_macro_name (macros.py lines 525 to 527): prefix with @
and upcase. -/
def normalizeMacroName (name : String) : String := "@" ++ upperString name

/-- The mutable macro variable bindings of the evaluator, with
first-match lookup; insertion at the front models dict assignment. -/
abbrev Locals := List (String × Exp)

/-- Binding assignment self.locals[name] = value. -/
def insertLocal (l : Locals) (k : String) (v : Exp) : Locals := (k, v) :: l

/-- Host-language evaluation of a condition (the eval_expression
truthiness test used by the clause macros), modelled for boolean
literals; any other expression is a generated-code evaluation failure. -/
def evalCondition : Exp → Except SqlMeshError Bool
  | .boolean b => .ok b
  | _ => .error (.macroEvalError "Error trying to eval macro.")

/-- Common body of the clause macros (macros.py lines 371 to 522):
return the clause expression when the condition evaluates truthy,
otherwise return nothing, deleting the clause. -/
def clauseMacroCall (args : List Exp) : Except SqlMeshError (Option Exp) :=
  match args with
  | [condition, expression] =>
    (evalCondition condition).map (fun b => if b then some expression else none)
  | _ => .error (.macroEvalError "invalid clause macro arguments")

/-- The builtin macro registry restricted to the clause macros, keyed by
normalized name.  The iteration combinators are not modelled. -/
def macroRegistry :
    List (String × (List Exp → Except SqlMeshError (Option Exp))) :=
  [("@WITH", clauseMacroCall), ("@JOIN", clauseMacroCall),
   ("@WHERE", clauseMacroCall), ("@GROUP_BY", clauseMacroCall),
   ("@HAVING", clauseMacroCall), ("@ORDER_BY", clauseMacroCall)]

/-- The reserved clause macro names (dialect.py line 104). -/
def clauseMacroNames : List String :=
  ["WITH", "JOIN", "WHERE", "GROUP_BY", "HAVING", "ORDER_BY"]

namespace MacroEvaluator

/-- MacroEvaluator.send (macros.py lines 108 to 116): look up the
normalized name in the registry; an unknown name raises the base
SQLMeshError carrying the unnormalized name. -/
def send (name : String) (args : List Exp) :
    Except SqlMeshError (Option Exp) :=
  match lookup? macroRegistry (normalizeMacroName name) with
  | none => .error (.sqlmeshError
      ("Macro " ++ squote ++ name ++ squote ++ " does not exist."))
  | some func => func args

end MacroEvaluator

mutual

/-- Whether a node contains a Column or Table node, the
node.find(exp.Column, exp.Table) test of macros.py line 171. -/
def containsColTab : Exp → Bool
  | .boolean _ => false
  | .numLit _ => false
  | .strLit _ => false
  | .ident _ => false
  | .column _ => true
  | .table _ => true
  | .aliasE e _ => containsColTab e
  | .castE e _ => containsColTab e
  | .between e lo hi => containsColTab e || containsColTab lo || containsColTab hi
  | .andE a b => containsColTab a || containsColTab b
  | .gt a b => containsColTab a || containsColTab b
  | .whereClause e => containsColTab e
  | .groupClause es => containsColTabList es
  | .havingClause e => containsColTab e
  | .orderClause es => containsColTabList es
  | .joinClause e => containsColTab e
  | .withClause es => containsColTabList es
  | .subquery q _ => containsColTab q
  | .unionE l r => containsColTab l || containsColTab r
  | .selectE ps ft w g hv o =>
    containsColTabList ps || containsColTabOpt ft || containsColTabOpt w ||
      containsColTabOpt g || containsColTabOpt hv || containsColTabOpt o
  | .macroVar _ => false
  | .macroFunc _ args => containsColTabList args
  | .macroDef _ e => containsColTab e

def containsColTabList : List Exp → Bool
  | [] => false
  | x :: xs => containsColTab x || containsColTabList xs

def containsColTabOpt : Option Exp → Bool
  | none => false
  | some e => containsColTab e

end

namespace MacroEvaluator

/-- MacroEvaluator.evaluate (macros.py lines 164 to 182) on macro
nodes: a MacroDef binds its raw expression in locals and evaluates to
itself; a MacroFunc containing a Column or Table dispatches through
send, otherwise through generated-code evaluation (eval_expression,
lines 184 to 199) whose failures are wrapped in MacroEvalError with a
diagnostic message (code and sql payload elided).  Non-macro nodes
evaluate to themselves. -/
def evaluate (locals : Locals) :
    Exp → Except SqlMeshError (Locals × Option Exp)
  | .macroDef n e => .ok (insertLocal locals n e, some (.macroDef n e))
  | .macroFunc name args =>
    if containsColTabList args then
      (send name args).map (fun r => (locals, r))
    else
      match send name args with
      | .ok r => .ok (locals, r)
      | .error _ => .error (.macroEvalError "Error trying to eval macro.")
  | e => .ok (locals, some e)

end MacroEvaluator

mutual

/-- Phase 1 of MacroEvaluator.transform (lines 121 to 125): bottom-up
replacement of every MacroVar by its binding in locals; a missing
binding is the KeyError of self.locals[name]. -/
def substExp (locals : Locals) : Exp → Except SqlMeshError Exp
  | .macroVar n =>
    match lookup? locals n with
    | some v => .ok v
    | none => .error (.macroEvalError ("KeyError: " ++ squote ++ n ++ squote))
  | .boolean b => .ok (.boolean b)
  | .numLit v => .ok (.numLit v)
  | .strLit s => .ok (.strLit s)
  | .ident s => .ok (.ident s)
  | .column s => .ok (.column s)
  | .table s => .ok (.table s)
  | .aliasE e n => do .ok (.aliasE (← substExp locals e) n)
  | .castE e t => do .ok (.castE (← substExp locals e) t)
  | .between e lo hi => do
    .ok (.between (← substExp locals e) (← substExp locals lo)
      (← substExp locals hi))
  | .andE a b => do .ok (.andE (← substExp locals a) (← substExp locals b))
  | .gt a b => do .ok (.gt (← substExp locals a) (← substExp locals b))
  | .whereClause e => do .ok (.whereClause (← substExp locals e))
  | .groupClause es => do .ok (.groupClause (← substList locals es))
  | .havingClause e => do .ok (.havingClause (← substExp locals e))
  | .orderClause es => do .ok (.orderClause (← substList locals es))
  | .joinClause e => do .ok (.joinClause (← substExp locals e))
  | .withClause es => do .ok (.withClause (← substList locals es))
  | .subquery q n => do .ok (.subquery (← substExp locals q) n)
  | .unionE l r => do .ok (.unionE (← substExp locals l) (← substExp locals r))
  | .selectE ps ft w g hv o => do
    .ok (.selectE (← substList locals ps) (← substOpt locals ft)
      (← substOpt locals w) (← substOpt locals g) (← substOpt locals hv)
      (← substOpt locals o))
  | .macroFunc n args => do .ok (.macroFunc n (← substList locals args))
  | .macroDef n e => do .ok (.macroDef n (← substExp locals e))

def substList (locals : Locals) : List Exp → Except SqlMeshError (List Exp)
  | [] => .ok []
  | x :: xs => do
    let y ← substExp locals x
    let ys ← substList locals xs
    .ok (y :: ys)

def substOpt (locals : Locals) : Option Exp → Except SqlMeshError (Option Exp)
  | none => .ok none
  | some e => do .ok (some (← substExp locals e))

end

mutual

/-- Phase 2 of MacroEvaluator.transform: evaluate_macros (lines 127 to
135): children first, then macro nodes are evaluated; a child that
evaluates to nothing is removed (deleted from list arguments, cleared
from optional arguments).  A mandatory child evaluating to nothing is
outside the model and reported as an error. -/
def evalMacros (locals : Locals) :
    Exp → Except SqlMeshError (Locals × Option Exp)
  | .boolean b => .ok (locals, some (.boolean b))
  | .numLit v => .ok (locals, some (.numLit v))
  | .strLit s => .ok (locals, some (.strLit s))
  | .ident s => .ok (locals, some (.ident s))
  | .column s => .ok (locals, some (.column s))
  | .table s => .ok (locals, some (.table s))
  | .aliasE e n => do
    let (l₁, e') ← evalMacros locals e
    match e' with
    | some e' => .ok (l₁, some (.aliasE e' n))
    | none => .error (.macroEvalError "mandatory child removed")
  | .castE e t => do
    let (l₁, e') ← evalMacros locals e
    match e' with
    | some e' => .ok (l₁, some (.castE e' t))
    | none => .error (.macroEvalError "mandatory child removed")
  | .between e lo hi => do
    let (l₁, e') ← evalMacros locals e
    let (l₂, lo') ← evalMacros l₁ lo
    let (l₃, hi') ← evalMacros l₂ hi
    match e', lo', hi' with
    | some e', some lo', some hi' => .ok (l₃, some (.between e' lo' hi'))
    | _, _, _ => .error (.macroEvalError "mandatory child removed")
  | .andE a b => do
    let (l₁, a') ← evalMacros locals a
    let (l₂, b') ← evalMacros l₁ b
    match a', b' with
    | some a', some b' => .ok (l₂, some (.andE a' b'))
    | _, _ => .error (.macroEvalError "mandatory child removed")
  | .gt a b => do
    let (l₁, a') ← evalMacros locals a
    let (l₂, b') ← evalMacros l₁ b
    match a', b' with
    | some a', some b' => .ok (l₂, some (.gt a' b'))
    | _, _ => .error (.macroEvalError "mandatory child removed")
  | .whereClause e => do
    let (l₁, e') ← evalMacros locals e
    match e' with
    | some e' => .ok (l₁, some (.whereClause e'))
    | none => .error (.macroEvalError "mandatory child removed")
  | .groupClause es => do
    let (l₁, es') ← evalMacrosList locals es
    .ok (l₁, some (.groupClause es'))
  | .havingClause e => do
    let (l₁, e') ← evalMacros locals e
    match e' with
    | some e' => .ok (l₁, some (.havingClause e'))
    | none => .error (.macroEvalError "mandatory child removed")
  | .orderClause es => do
    let (l₁, es') ← evalMacrosList locals es
    .ok (l₁, some (.orderClause es'))
  | .joinClause e => do
    let (l₁, e') ← evalMacros locals e
    match e' with
    | some e' => .ok (l₁, some (.joinClause e'))
    | none => .error (.macroEvalError "mandatory child removed")
  | .withClause es => do
    let (l₁, es') ← evalMacrosList locals es
    .ok (l₁, some (.withClause es'))
  | .subquery q n => do
    let (l₁, q') ← evalMacros locals q
    match q' with
    | some q' => .ok (l₁, some (.subquery q' n))
    | none => .error (.macroEvalError "mandatory child removed")
  | .unionE l r => do
    let (l₁, l') ← evalMacros locals l
    let (l₂, r') ← evalMacros l₁ r
    match l', r' with
    | some l', some r' => .ok (l₂, some (.unionE l' r'))
    | _, _ => .error (.macroEvalError "mandatory child removed")
  | .selectE ps ft w g hv o => do
    let (l₁, ps') ← evalMacrosList locals ps
    let (l₂, ft') ← evalMacrosOpt l₁ ft
    let (l₃, w') ← evalMacrosOpt l₂ w
    let (l₄, g') ← evalMacrosOpt l₃ g
    let (l₅, hv') ← evalMacrosOpt l₄ hv
    let (l₆, o') ← evalMacrosOpt l₅ o
    .ok (l₆, some (.selectE ps' ft' w' g' hv' o'))
  | .macroVar n => .ok (locals, some (.macroVar n))
  | .macroFunc name args => do
    let (l₁, args') ← evalMacrosList locals args
    MacroEvaluator.evaluate l₁ (.macroFunc name args')
  | .macroDef n e => do
    let (l₁, e') ← evalMacros locals e
    match e' with
    | some e' => MacroEvaluator.evaluate l₁ (.macroDef n e')
    | none => .error (.macroEvalError "mandatory child removed")

def evalMacrosList (locals : Locals) :
    List Exp → Except SqlMeshError (Locals × List Exp)
  | [] => .ok (locals, [])
  | x :: xs => do
    let (l₁, x') ← evalMacros locals x
    let (l₂, xs') ← evalMacrosList l₁ xs
    .ok (l₂, match x' with | some x' => x' :: xs' | none => xs')

def evalMacrosOpt (locals : Locals) :
    Option Exp → Except SqlMeshError (Locals × Option Exp)
  | none => .ok (locals, none)
  | some e => evalMacros locals e

end

namespace MacroEvaluator

/-- MacroEvaluator.transform (macros.py lines 118 to 148): substitute
macro variables, then evaluate macro functions bottom-up, threading the
locals.  The trailing alias-column cleanup of lines 139 to 146 is the
identity in this embedding because aliases carry plain names. -/
def transform (locals : Locals) (query : Exp) :
    Except SqlMeshError (Locals × Option Exp) := do
  let q₁ ← substExp locals query
  evalMacros locals q₁

end MacroEvaluator

mutual

/-- No MacroVar node occurs in the expression. -/
def noMacroVarB : Exp → Bool
  | .boolean _ => true
  | .numLit _ => true
  | .strLit _ => true
  | .ident _ => true
  | .column _ => true
  | .table _ => true
  | .aliasE e _ => noMacroVarB e
  | .castE e _ => noMacroVarB e
  | .between e lo hi => noMacroVarB e && noMacroVarB lo && noMacroVarB hi
  | .andE a b => noMacroVarB a && noMacroVarB b
  | .gt a b => noMacroVarB a && noMacroVarB b
  | .whereClause e => noMacroVarB e
  | .groupClause es => noMacroVarListB es
  | .havingClause e => noMacroVarB e
  | .orderClause es => noMacroVarListB es
  | .joinClause e => noMacroVarB e
  | .withClause es => noMacroVarListB es
  | .subquery q _ => noMacroVarB q
  | .unionE l r => noMacroVarB l && noMacroVarB r
  | .selectE ps ft w g hv o =>
    noMacroVarListB ps && noMacroVarOptB ft && noMacroVarOptB w &&
      noMacroVarOptB g && noMacroVarOptB hv && noMacroVarOptB o
  | .macroVar _ => false
  | .macroFunc _ args => noMacroVarListB args
  | .macroDef _ e => noMacroVarB e

def noMacroVarListB : List Exp → Bool
  | [] => true
  | x :: xs => noMacroVarB x && noMacroVarListB xs

def noMacroVarOptB : Option Exp → Bool
  | none => true
  | some e => noMacroVarB e

end

mutual

/-- No MacroVar and no MacroFunc node other than MacroDef occurs in the
expression (MacroDef nodes are allowed, with macro-free bodies). -/
def macroFreeExceptDefB : Exp → Bool
  | .boolean _ => true
  | .numLit _ => true
  | .strLit _ => true
  | .ident _ => true
  | .column _ => true
  | .table _ => true
  | .aliasE e _ => macroFreeExceptDefB e
  | .castE e _ => macroFreeExceptDefB e
  | .between e lo hi =>
    macroFreeExceptDefB e && macroFreeExceptDefB lo && macroFreeExceptDefB hi
  | .andE a b => macroFreeExceptDefB a && macroFreeExceptDefB b
  | .gt a b => macroFreeExceptDefB a && macroFreeExceptDefB b
  | .whereClause e => macroFreeExceptDefB e
  | .groupClause es => macroFreeExceptDefListB es
  | .havingClause e => macroFreeExceptDefB e
  | .orderClause es => macroFreeExceptDefListB es
  | .joinClause e => macroFreeExceptDefB e
  | .withClause es => macroFreeExceptDefListB es
  | .subquery q _ => macroFreeExceptDefB q
  | .unionE l r => macroFreeExceptDefB l && macroFreeExceptDefB r
  | .selectE ps ft w g hv o =>
    macroFreeExceptDefListB ps && macroFreeExceptDefOptB ft &&
      macroFreeExceptDefOptB w && macroFreeExceptDefOptB g &&
      macroFreeExceptDefOptB hv && macroFreeExceptDefOptB o
  | .macroVar _ => false
  | .macroFunc _ _ => false
  | .macroDef _ e => macroFreeExceptDefB e

def macroFreeExceptDefListB : List Exp → Bool
  | [] => true
  | x :: xs => macroFreeExceptDefB x && macroFreeExceptDefListB xs

def macroFreeExceptDefOptB : Option Exp → Bool
  | none => true
  | some e => macroFreeExceptDefB e

end

mutual

/-- Whether a MacroDef node occurs in the expression. -/
def containsMacroDefB : Exp → Bool
  | .boolean _ => false
  | .numLit _ => false
  | .strLit _ => false
  | .ident _ => false
  | .column _ => false
  | .table _ => false
  | .aliasE e _ => containsMacroDefB e
  | .castE e _ => containsMacroDefB e
  | .between e lo hi =>
    containsMacroDefB e || containsMacroDefB lo || containsMacroDefB hi
  | .andE a b => containsMacroDefB a || containsMacroDefB b
  | .gt a b => containsMacroDefB a || containsMacroDefB b
  | .whereClause e => containsMacroDefB e
  | .groupClause es => containsMacroDefListB es
  | .havingClause e => containsMacroDefB e
  | .orderClause es => containsMacroDefListB es
  | .joinClause e => containsMacroDefB e
  | .withClause es => containsMacroDefListB es
  | .subquery q _ => containsMacroDefB q
  | .unionE l r => containsMacroDefB l || containsMacroDefB r
  | .selectE ps ft w g hv o =>
    containsMacroDefListB ps || containsMacroDefOptB ft ||
      containsMacroDefOptB w || containsMacroDefOptB g ||
      containsMacroDefOptB hv || containsMacroDefOptB o
  | .macroVar _ => false
  | .macroFunc _ args => containsMacroDefListB args
  | .macroDef _ _ => true

def containsMacroDefListB : List Exp → Bool
  | [] => false
  | x :: xs => containsMacroDefB x || containsMacroDefListB xs

def containsMacroDefOptB : Option Exp → Bool
  | none => false
  | some e => containsMacroDefB e

end

/-- The clause-macro example query
SELECT x FROM t @WHERE(TRUE) x > 1 as parsed. -/
def whereTrueQuery : Exp :=
  .selectE [.column "x"] (some (.table "t"))
    (some (.macroFunc "WHERE" [.boolean true,
      .whereClause (.gt (.column "x") (.numLit "1"))])) none none none

/-- The rendering of the example with a true condition:
SELECT x FROM t WHERE x > 1. -/
def whereTrueResult : Exp :=
  .selectE [.column "x"] (some (.table "t"))
    (some (.whereClause (.gt (.column "x") (.numLit "1")))) none none none

/-- The clause-macro example query with a false condition. -/
def whereFalseQuery : Exp :=
  .selectE [.column "x"] (some (.table "t"))
    (some (.macroFunc "WHERE" [.boolean false,
      .whereClause (.gt (.column "x") (.numLit "1"))])) none none none

/-- The rendering of the example with a false condition:
SELECT x FROM t. -/
def whereFalseResult : Exp :=
  .selectE [.column "x"] (some (.table "t")) none none none none

/-- Witness query for macro elimination: a macro variable in a
projection and a clause macro in the where slot. -/
def wElimQuery : Exp :=
  .selectE [.aliasE (.macroVar "x") "y"] (some (.table "t"))
    (some (.macroFunc "WHERE" [.boolean true,
      .whereClause (.gt (.column "y") (.numLit "0"))])) none none none

/-- The rendering of the macro elimination witness query. -/
def wElimResult : Exp :=
  .selectE [.aliasE (.numLit "1") "y"] (some (.table "t"))
    (some (.whereClause (.gt (.column "y") (.numLit "0")))) none none none

/-! ## Incremental time filtering and cron normalization (model.py) -/

/-- Model time column: name and optional format string
(model.py lines 347 to 373). -/
structure TimeColumn where
  column : String
  format : Option String
deriving DecidableEq, Repr

/-- ModelKind (model.py lines 300 to 331). -/
inductive ModelKind
  | incremental
  | full
  | snapshotKind
  | view
  | embedded
deriving DecidableEq, Repr

/-- The model fields used by the rendering time filter: kind, time
column and the declared column types. -/
structure Model where
  name : String
  kind : ModelKind
  timeColumn : Option TimeColumn
  columns : List (String × SqlType)
deriving DecidableEq, Repr

/-- A calendar date, the TimeLike values of this model. -/
structure Date where
  year : Nat
  month : Nat
  day : Nat
deriving DecidableEq, Repr

/-- Two-digit zero padding. -/
def pad2 (n : Nat) : String :=
  if n < 10 then "0" ++ toString n else toString n

/-- Four-digit zero padding. -/
def pad4 (n : Nat) : String :=
  if n < 10 then "000" ++ toString n
  else if n < 100 then "00" ++ toString n
  else if n < 1000 then "0" ++ toString n
  else toString n

/-- strftime over the directives the time column formats use
(percent Y, percent m, percent d; other characters are literal). -/
def strftime (d : Date) : List Char → String
  | [] => ""
  | '%' :: 'Y' :: rest => pad4 d.year ++ strftime d rest
  | '%' :: 'm' :: rest => pad2 d.month ++ strftime d rest
  | '%' :: 'd' :: rest => pad2 d.day ++ strftime d rest
  | c :: rest => String.mk [c] ++ strftime d rest

/-- The default string form of a date (str of a Python date). -/
def Date.isoStr (d : Date) : String :=
  pad4 d.year ++ "-" ++ pad2 d.month ++ "-" ++ pad2 d.day

/-- Model.convert_to_time_column (model.py lines 1020 to 1036) for the
default dialect, whose empty time mapping makes format_time the
identity: format the time per the declared format, then build a string
literal for text types, a number literal for numeric types, a cast of
the string literal for temporal types, and the converted value
otherwise.  None models the KeyError on a time column missing from the
declared columns. -/
def Model.convertToTimeColumn (m : Model) (time : Date) : Option Exp :=
  match m.timeColumn with
  | some tc =>
    let timeStr :=
      match tc.format with
      | some fmt => strftime time fmt.data
      | none => time.isoStr
    match lookup? m.columns tc.column with
    | none => none
    | some ty =>
      some (match ty with
        | .text => .strLit timeStr
        | .numeric => .numLit timeStr
        | .temporal => .castE (.strLit timeStr) ty
        | .other => .strLit timeStr)
  | none => some (.strLit time.isoStr)

/-- alias_or_name of a projection. -/
def aliasOrName : Exp → String
  | .aliasE _ n => n
  | .column n => n
  | .ident n => n
  | .castE e _ => aliasOrName e
  | _ => ""

/-- Strip an outer alias (model.py lines 1142 to 1143). -/
def stripAlias : Exp → Exp
  | .aliasE e _ => e
  | e => e

/-- select.where(expr): AND the predicate into the existing WHERE
clause, or install a new one. -/
def whereAnd : Option Exp → Exp → Option Exp
  | some (.whereClause ex), cond => some (.whereClause (.andE ex cond))
  | _, cond => some (.whereClause cond)

/-- select.having(expr): AND the predicate into the existing HAVING
clause, or install a new one. -/
def havingAnd : Option Exp → Exp → Option Exp
  | some (.havingClause ex), cond => some (.havingClause (.andE ex cond))
  | _, cond => some (.havingClause cond)

/-- Model._filter_time_column (model.py lines 1126 to 1150): with no
time column the select is unchanged; otherwise find the projection
whose alias-or-name is the time column, strip its alias, and AND a
BETWEEN over it into WHERE when the select has no GROUP BY and into
HAVING otherwise.  None models the StopIteration of a missing
projection or the KeyError of an unknown column type, and non-select
input. -/
def Model.filterTimeColumn (m : Model) (query : Exp) (start finish : Date) :
    Option Exp :=
  match query with
  | .selectE ps ft w g hv o =>
    match m.timeColumn with
    | none => some (.selectE ps ft w g hv o)
    | some tc =>
      match m.convertToTimeColumn start, m.convertToTimeColumn finish with
      | some low, some high =>
        match ps.find? (fun s => aliasOrName s == tc.column) with
        | none => none
        | some proj =>
          let btw := Exp.between (stripAlias proj) low high
          match g with
          | none => some (.selectE ps ft (whereAnd w btw) g hv o)
          | some ge => some (.selectE ps ft w (some ge) (havingAnd hv btw) o)
      | _, _ => none
  | _ => none

mutual

/-- The walk of Model.render_query (model.py lines 909 to 917) with
prune at Select nodes: the time filter is applied to each outermost
Select and the walk does not descend into a Select. -/
def filterOuterSelects (m : Model) (start finish : Date) : Exp → Option Exp
  | .selectE ps ft w g hv o =>
    m.filterTimeColumn (.selectE ps ft w g hv o) start finish
  | .boolean b => some (.boolean b)
  | .numLit v => some (.numLit v)
  | .strLit s => some (.strLit s)
  | .ident s => some (.ident s)
  | .column s => some (.column s)
  | .table s => some (.table s)
  | .aliasE e n => do some (.aliasE (← filterOuterSelects m start finish e) n)
  | .castE e t => do some (.castE (← filterOuterSelects m start finish e) t)
  | .between e lo hi => do
    some (.between (← filterOuterSelects m start finish e)
      (← filterOuterSelects m start finish lo)
      (← filterOuterSelects m start finish hi))
  | .andE a b => do
    some (.andE (← filterOuterSelects m start finish a)
      (← filterOuterSelects m start finish b))
  | .gt a b => do
    some (.gt (← filterOuterSelects m start finish a)
      (← filterOuterSelects m start finish b))
  | .whereClause e => do
    some (.whereClause (← filterOuterSelects m start finish e))
  | .groupClause es => do
    some (.groupClause (← filterOuterSelectsList m start finish es))
  | .havingClause e => do
    some (.havingClause (← filterOuterSelects m start finish e))
  | .orderClause es => do
    some (.orderClause (← filterOuterSelectsList m start finish es))
  | .joinClause e => do
    some (.joinClause (← filterOuterSelects m start finish e))
  | .withClause es => do
    some (.withClause (← filterOuterSelectsList m start finish es))
  | .subquery q n => do
    some (.subquery (← filterOuterSelects m start finish q) n)
  | .unionE l r => do
    some (.unionE (← filterOuterSelects m start finish l)
      (← filterOuterSelects m start finish r))
  | .macroVar n => some (.macroVar n)
  | .macroFunc n args => do
    some (.macroFunc n (← filterOuterSelectsList m start finish args))
  | .macroDef n e => do
    some (.macroDef n (← filterOuterSelects m start finish e))

def filterOuterSelectsList (m : Model) (start finish : Date) :
    List Exp → Option (List Exp)
  | [] => some []
  | x :: xs => do
    some ((← filterOuterSelects m start finish x) ::
      (← filterOuterSelectsList m start finish xs))

end

/-- The incremental filtering stage of Model.render_query (lines 909
to 917): applied only to models of incremental kind. -/
def Model.renderFilterStage (m : Model) (q : Exp) (start finish : Date) :
    Option Exp :=
  if m.kind = .incremental then filterOuterSelects m start finish q else some q

mutual

/-- The outermost Select nodes of an expression: those the pruned walk
of render_query visits. -/
def outerSelects : Exp → List Exp
  | .selectE ps ft w g hv o => [.selectE ps ft w g hv o]
  | .boolean _ => []
  | .numLit _ => []
  | .strLit _ => []
  | .ident _ => []
  | .column _ => []
  | .table _ => []
  | .aliasE e _ => outerSelects e
  | .castE e _ => outerSelects e
  | .between e lo hi => outerSelects e ++ outerSelects lo ++ outerSelects hi
  | .andE a b => outerSelects a ++ outerSelects b
  | .gt a b => outerSelects a ++ outerSelects b
  | .whereClause e => outerSelects e
  | .groupClause es => outerSelectsList es
  | .havingClause e => outerSelects e
  | .orderClause es => outerSelectsList es
  | .joinClause e => outerSelects e
  | .withClause es => outerSelectsList es
  | .subquery q _ => outerSelects q
  | .unionE l r => outerSelects l ++ outerSelects r
  | .macroVar _ => []
  | .macroFunc _ args => outerSelectsList args
  | .macroDef _ e => outerSelects e

def outerSelectsList : List Exp → List Exp
  | [] => []
  | x :: xs => outerSelects x ++ outerSelectsList xs

end

/-- A conjunction chain contains a BETWEEN over exactly the given
expression and bounds. -/
def ContainsBetweenOn (b₀ low high : Exp) : Exp → Prop
  | .between b lo hi => b = b₀ ∧ lo = low ∧ hi = high
  | .andE a b => ContainsBetweenOn b₀ low high a ∨ ContainsBetweenOn b₀ low high b
  | _ => False

/-- A select restricts the time column to the window: a projection is
named after the column, and the BETWEEN over the stripped projection
with the converted bounds sits in WHERE when there is no GROUP BY and
in HAVING otherwise. -/
def SelectHasTimePredicate (col : String) (low high : Exp) : Exp → Prop
  | .selectE ps _ w g hv _ =>
    ∃ proj, ps.find? (fun s => aliasOrName s == col) = some proj ∧
      (match g with
       | none => ∃ ex, w = some (.whereClause ex) ∧
           ContainsBetweenOn (stripAlias proj) low high ex
       | some _ => ∃ ex, hv = some (.havingClause ex) ∧
           ContainsBetweenOn (stripAlias proj) low high ex)
  | _ => False

/-- IntervalUnit (model.py lines 334 to 344). -/
inductive IntervalUnit
  | day
  | hour
  | minute
deriving DecidableEq, Repr

/-- The minimum gap between consecutive samples, min(b - a for a, b in
zip(samples, samples[1:])); none on fewer than two samples, where the
Python min raises. -/
def minGap : List Nat → Option Nat
  | a :: b :: rest =>
    match minGap (b :: rest) with
    | none => some (b - a)
    | some mg => some (min (b - a) mg)
  | _ => none

/-- ModelMeta.interval_unit (model.py lines 477 to 495): the unit from
the minimum gap over the sampled next fires of the cron schedule
(croniter is external, so the ten samples are the input), with the
86400 and 3600 second thresholds. -/
def ModelMeta.intervalUnit (samples : List Nat) : Option IntervalUnit :=
  match minGap samples with
  | none => none
  | some mg =>
    some (if 86400 ≤ mg then .day else if 3600 ≤ mg then .hour else .minute)

/-- ModelMeta.normalized_cron (model.py lines 497 to 513): the cron
string per interval unit (the trailing empty-string return is
unreachable). -/
def ModelMeta.normalizedCron (samples : List Nat) : Option String :=
  (ModelMeta.intervalUnit samples).map (fun u =>
    match u with
    | .minute => "* * * * *"
    | .hour => "0 * * * *"
    | .day => "0 0 * * *")

mutual

/-- Every Select node of an expression, including those nested inside
other selects and subqueries. -/
def allSelects : Exp → List Exp
  | .selectE ps ft w g hv o =>
    .selectE ps ft w g hv o ::
      (allSelectsList ps ++ allSelectsOpt ft ++ allSelectsOpt w ++
        allSelectsOpt g ++ allSelectsOpt hv ++ allSelectsOpt o)
  | .boolean _ => []
  | .numLit _ => []
  | .strLit _ => []
  | .ident _ => []
  | .column _ => []
  | .table _ => []
  | .aliasE e _ => allSelects e
  | .castE e _ => allSelects e
  | .between e lo hi => allSelects e ++ allSelects lo ++ allSelects hi
  | .andE a b => allSelects a ++ allSelects b
  | .gt a b => allSelects a ++ allSelects b
  | .whereClause e => allSelects e
  | .groupClause es => allSelectsList es
  | .havingClause e => allSelects e
  | .orderClause es => allSelectsList es
  | .joinClause e => allSelects e
  | .withClause es => allSelectsList es
  | .subquery q _ => allSelects q
  | .unionE l r => allSelects l ++ allSelects r
  | .macroVar _ => []
  | .macroFunc _ args => allSelectsList args
  | .macroDef _ e => allSelects e

def allSelectsList : List Exp → List Exp
  | [] => []
  | x :: xs => allSelects x ++ allSelectsList xs

def allSelectsOpt : Option Exp → List Exp
  | none => []
  | some e => allSelects e

end

/-- The WHERE slot of a select node. -/
def selectWhereArg : Exp → Option Exp
  | .selectE _ _ w _ _ _ => w
  | _ => none

/-- The HAVING slot of a select node. -/
def selectHavingArg : Exp → Option Exp
  | .selectE _ _ _ _ hv _ => hv
  | _ => none

/-- An incremental model over a text time column ds with format
percent-Y percent-m percent-d. -/
def wTimeTc : TimeColumn := { column := "ds", format := some "%Y%m%d" }

/-- The witness model for the time filtering claims. -/
def wTimeModel : Model :=
  { name := "db.events"
    kind := .incremental
    timeColumn := some wTimeTc
    columns := [("ds", SqlType.text), ("y", SqlType.numeric)] }

/-- The witness window endpoint. -/
def wDate : Date := { year := 2021, month := 1, day := 1 }

/-- A select over the time column with no GROUP BY. -/
def wTimeSelect : Exp :=
  .selectE [.column "ds"] (some (.table "t")) none none none none

/-- The filtered form of the witness select. -/
def wTimeResult : Exp :=
  .selectE [.column "ds"] (some (.table "t"))
    (some (.whereClause
      (.between (.column "ds") (.strLit "20210101") (.strLit "20210101"))))
    none none none

/-- An inner select with no WHERE and no HAVING at all. -/
def wInner : Exp :=
  .selectE [.column "ds"] (some (.table "raw")) none none none none

/-- An outer select reading the inner one through a subquery. -/
def wNestedQuery : Exp :=
  .selectE [.column "ds"] (some (.subquery wInner "sub")) none none none none

/-- The rendered form of the nested witness query: the outer select is
filtered, the inner one is untouched. -/
def wNestedResult : Exp :=
  .selectE [.column "ds"] (some (.subquery wInner "sub"))
    (some (.whereClause
      (.between (.column "ds") (.strLit "20210101") (.strLit "20210101"))))
    none none none

/-- Ten cron samples one minute apart. -/
def wMinuteSamples : List Nat :=
  [0, 60, 120, 180, 240, 300, 360, 420, 480, 540]

/-- Ten cron samples one hour apart. -/
def wHourSamples : List Nat :=
  [0, 3600, 7200, 10800, 14400, 18000, 21600, 25200, 28800, 32400]

/-! ### Helper lemmas on lists and options -/

theorem optionMapM_cons_eq_some {α β : Type} (f : α → Option β) (x : α)
    (xs : List α) (l' : List β) (h : optionMapM f (x :: xs) = some l') :
    ∃ y ys, f x = some y ∧ optionMapM f xs = some ys ∧ l' = y :: ys := by
  unfold optionMapM at h
  rcases hx : f x with _ | y <;> rw [hx] at h
  · simp at h
  · rcases hxs : optionMapM f xs with _ | ys <;> rw [hxs] at h
    · simp at h
    · exact ⟨y, ys, rfl, rfl, by simpa using h.symm⟩

theorem optionMapM_eq_map_of_forall_some {α β : Type} (f : α → Option β)
    (g : α → β) :
    ∀ l : List α, (∀ a ∈ l, f a = some (g a)) →
      optionMapM f l = some (l.map g) := by
  intro l
  induction l with
  | nil => intro _; rfl
  | cons x xs ih =>
    intro h
    have hx := h x (List.mem_cons_self x xs)
    have hxs := ih (fun a ha => h a (List.mem_cons_of_mem x ha))
    unfold optionMapM
    rw [hx, hxs]
    simp

theorem optionMapM_keys {α β γ : Type} (f : α → Option β) (g : α → γ) (h : β → γ)
    (H : ∀ a b, f a = some b → h b = g a) :
    ∀ (l : List α) (l' : List β), optionMapM f l = some l' →
      l'.map h = l.map g := by
  intro l
  induction l with
  | nil =>
    intro l' hl
    unfold optionMapM at hl
    simp only [Option.some.injEq] at hl
    simp [← hl]
  | cons x xs ih =>
    intro l' hl
    obtain ⟨y, ys, hy, hys, hl'⟩ := optionMapM_cons_eq_some f x xs l' hl
    subst hl'
    simp [H x y hy, ih ys hys]

theorem mem_of_optionMapM {α β : Type} (f : α → Option β) :
    ∀ (l : List α) (l' : List β), optionMapM f l = some l' →
      ∀ b ∈ l', ∃ a ∈ l, f a = some b := by
  intro l
  induction l with
  | nil =>
    intro l' hl
    unfold optionMapM at hl
    simp only [Option.some.injEq] at hl
    subst hl
    simp
  | cons x xs ih =>
    intro l' hl
    obtain ⟨y, ys, hy, hys, hl'⟩ := optionMapM_cons_eq_some f x xs l' hl
    subst hl'
    intro c hc
    rcases List.mem_cons.mp hc with h | h
    · exact ⟨x, List.mem_cons_self x xs, h ▸ hy⟩
    · obtain ⟨a, ha, hfa⟩ := ih ys hys c h
      exact ⟨a, List.mem_cons_of_mem x ha, hfa⟩

theorem optionFoldl_cons_eq_some {α β : Type} (f : β → α → Option β) (acc : β)
    (x : α) (xs : List α) (acc' : β)
    (h : optionFoldl f acc (x :: xs) = some acc') :
    ∃ acc₁, f acc x = some acc₁ ∧ optionFoldl f acc₁ xs = some acc' := by
  unfold optionFoldl at h
  rcases hx : f acc x with _ | acc₁ <;> rw [hx] at h
  · simp at h
  · exact ⟨acc₁, rfl, h⟩

namespace ContextDiff

/-! ### Structural lemmas about the first loop -/

theorem diffStep_shape (st : StateReader) (mi : List (String × SnapshotTableInfo))
    (acc : DiffAcc) (p : String × Snapshot) (acc' : DiffAcc)
    (h : diffStep st mi acc p = some acc') :
    (∃ s b, acc'.merged = acc.merged ++ [(p.1, s, b)]) ∧
    (acc'.modifiedPairs = acc.modifiedPairs ∨
      ∃ pr b, (lookup? mi p.1).isSome ∧
        acc'.modifiedPairs = acc.modifiedPairs ++ [(p.1, pr, b)]) ∧
    (acc'.newSnaps = acc.newSnaps ∨ ∃ s, acc'.newSnaps = acc.newSnaps ++ [s]) := by
  unfold diffStep at h
  rcases hex : st.getSnapshot p.2.snapshotId with _ | existing <;>
    simp only [hex] at h
  · rcases hmi : lookup? mi p.1 with _ | minfo <;> simp only [hmi] at h
    · cases h
      exact ⟨⟨p.2, true, rfl⟩, Or.inl rfl, Or.inr ⟨p.2, rfl⟩⟩
    · rcases hold : st.getSnapshot minfo.snapshotId with _ | old <;>
        simp only [hold] at h
      · cases h
      · cases h
        exact ⟨⟨_, true, rfl⟩, Or.inr ⟨_, true, by simp [hmi], rfl⟩,
          Or.inr ⟨_, rfl⟩⟩
  · rcases hmi : lookup? mi p.1 with _ | minfo <;> simp only [hmi] at h
    · cases h
      exact ⟨⟨existing, false, rfl⟩, Or.inl rfl, Or.inl rfl⟩
    · rcases hold : st.getSnapshot minfo.snapshotId with _ | old <;>
        simp only [hold] at h
      · cases h
      · cases h
        exact ⟨⟨existing, false, rfl⟩,
          Or.inr ⟨_, false, by simp [hmi], rfl⟩, Or.inl rfl⟩

theorem fold_diffStep_invariants (st : StateReader)
    (mi : List (String × SnapshotTableInfo)) :
    ∀ (l : List (String × Snapshot)) (acc acc' : DiffAcc),
      optionFoldl (diffStep st mi) acc l = some acc' →
      acc'.merged.map (fun e => e.1) =
        acc.merged.map (fun e => e.1) ++ l.map Prod.fst ∧
      (∀ e ∈ acc'.modifiedPairs,
        e ∈ acc.modifiedPairs ∨ (lookup? mi e.1).isSome) := by
  intro l
  induction l with
  | nil =>
    intro acc acc' h
    unfold optionFoldl at h
    simp only [Option.some.injEq] at h
    subst h
    exact ⟨by simp, fun e he => Or.inl he⟩
  | cons x xs ih =>
    intro acc acc' h
    obtain ⟨acc₁, h₁, h₂⟩ := optionFoldl_cons_eq_some _ acc x xs acc' h
    obtain ⟨⟨s, b, hm⟩, hmp, _⟩ := diffStep_shape st mi acc x acc₁ h₁
    obtain ⟨ihm, ihmp⟩ := ih acc₁ acc' h₂
    constructor
    · rw [ihm, hm]; simp
    · intro e he
      rcases ihmp e he with h | h
      · rcases hmp with hmp | ⟨pr, bb, hs, hmp⟩
        · exact Or.inl (hmp ▸ h)
        · rw [hmp] at h
          rcases List.mem_append.mp h with h | h
          · exact Or.inl h
          · simp only [List.mem_singleton] at h
            subst h
            exact Or.inr hs
      · exact Or.inr h

theorem modifiedInfo_mem (st : StateReader) (environment : String)
    (snapshots : List (String × Snapshot)) (p : String × SnapshotTableInfo)
    (hmem : p ∈ modifiedInfo st environment snapshots) :
    p.1 ∈ snapshots.map Prod.fst ∧ p.1 ∉ addedNames st environment snapshots := by
  unfold modifiedInfo at hmem
  rw [List.mem_filterMap] at hmem
  obtain ⟨q, hq, hfq⟩ := hmem
  simp at hfq
  obtain ⟨h1, h2⟩ := hfq
  rcases hlk : lookup? (existingInfo st environment) q.1 with _ | info <;>
    rw [hlk] at h2
  · simp at h2
  · by_cases hne : q.2.fingerprint ≠ info.fingerprint
    · simp only [hne, if_true] at h2
      have hp1 : p.1 = q.1 := by cases h2; rfl
      rw [hp1]
      exact ⟨List.mem_map_of_mem Prod.fst hq, h1⟩
    · simp [hne] at h2

theorem modifiedInfo_lookup_isSome (st : StateReader) (environment : String)
    (snapshots : List (String × Snapshot)) (n : String)
    (h : (lookup? (modifiedInfo st environment snapshots) n).isSome) :
    n ∈ snapshots.map Prod.fst ∧ n ∉ addedNames st environment snapshots := by
  rcases ho : lookup? (modifiedInfo st environment snapshots) n with _ | i
  · rw [ho] at h; simp at h
  · unfold lookup? at ho
    simp only [Option.map_eq_some'] at ho
    obtain ⟨p, hp, hsnd⟩ := ho
    have hkey : p.1 = n := by simpa using List.find?_some hp
    have := modifiedInfo_mem st environment snapshots p
      (List.mem_of_find?_eq_some hp)
    rw [hkey] at this
    exact this

theorem mem_addedNames (st : StateReader) (environment : String)
    (snapshots : List (String × Snapshot)) (n : String) :
    n ∈ addedNames st environment snapshots ↔
      n ∈ snapshots.map Prod.fst ∧
        n ∉ (existingInfo st environment).map Prod.fst := by
  unfold addedNames
  simp [List.mem_filter]

theorem mem_removedNames (st : StateReader) (environment : String)
    (snapshots : List (String × Snapshot)) (n : String) :
    n ∈ removedNames st environment snapshots ↔
      n ∈ (existingInfo st environment).map Prod.fst ∧
        n ∉ snapshots.map Prod.fst := by
  unfold removedNames
  simp [List.mem_filter]

theorem create_eq_some_elim (environment : String)
    (snapshots : List (String × Snapshot)) (st : StateReader) (d : ContextDiff)
    (h : create environment snapshots st = some d) :
    ∃ acc, pass1 st environment snapshots = some acc ∧
      optionMapM (adjustVersion acc.remote) acc.newSnaps = some d.newSnapshots ∧
      optionMapM (fun e =>
        if e.2.2 then (adjustVersion acc.remote e.2.1).map (fun s => (e.1, s))
        else some (e.1, e.2.1)) acc.merged = some d.snapshots ∧
      optionMapM (fun e =>
        if e.2.2 then
          (adjustVersion acc.remote e.2.1.1).map (fun s => (e.1, s, e.2.1.2))
        else some (e.1, e.2.1.1, e.2.1.2)) acc.modifiedPairs =
          some d.modifiedSnapshots ∧
      d.added = addedNames st environment snapshots ∧
      d.removed = removedNames st environment snapshots ∧
      d.environment = environment ∧
      d.previousPlanId = (st.getEnvironment environment).map Environment.planId := by
  unfold create at h
  simp only [bind, Option.bind_eq_some] at h
  obtain ⟨acc, hacc, ns, hns, mg, hmg, md, hmd, h⟩ := h
  simp only [Option.some.injEq] at h
  subst h
  exact ⟨acc, hacc, hns, hmg, hmd, rfl, rfl, rfl, rfl⟩

theorem mergedMap_key (remote : List (String × List SnapshotDataVersion × Nat))
    (a : String × Snapshot × Bool) (b : String × Snapshot)
    (hfa : (if a.2.2 then (adjustVersion remote a.2.1).map (fun s => (a.1, s))
      else some (a.1, a.2.1)) = some b) : b.1 = a.1 := by
  by_cases hb : a.2.2 = true
  · rw [if_pos hb] at hfa
    rcases hadj : adjustVersion remote a.2.1 with _ | s <;> rw [hadj] at hfa
    · simp at hfa
    · simp only [Option.map_some', Option.some.injEq] at hfa
      rw [← hfa]
  · rw [if_neg hb] at hfa
    simp only [Option.some.injEq] at hfa
    rw [← hfa]

theorem modifiedMap_key (remote : List (String × List SnapshotDataVersion × Nat))
    (a : String × (Snapshot × Snapshot) × Bool) (b : String × Snapshot × Snapshot)
    (hfa : (if a.2.2 then
        (adjustVersion remote a.2.1.1).map (fun s => (a.1, s, a.2.1.2))
      else some (a.1, a.2.1.1, a.2.1.2)) = some b) : b.1 = a.1 := by
  by_cases hb : a.2.2 = true
  · rw [if_pos hb] at hfa
    rcases hadj : adjustVersion remote a.2.1.1 with _ | s <;> rw [hadj] at hfa
    · simp at hfa
    · simp only [Option.map_some', Option.some.injEq] at hfa
      rw [← hfa]
  · rw [if_neg hb] at hfa
    simp only [Option.some.injEq] at hfa
    rw [← hfa]

/-- C2: for every environment, local snapshots map, and state reader,
the ContextDiff returned by ContextDiff.create satisfies: added and
removed are disjoint, added is disjoint from the keys of
modified_snapshots, removed is disjoint from the keys of
modified_snapshots, and the key list of the merged snapshots field
equals the key list of the local snapshots argument. -/
theorem create_partition_invariants (environment : String)
    (snapshots : List (String × Snapshot)) (st : StateReader) (d : ContextDiff)
    (h : create environment snapshots st = some d) :
    (∀ n, n ∈ d.added → n ∉ d.removed) ∧
    (∀ n, n ∈ d.added → ∀ e ∈ d.modifiedSnapshots, e.1 ≠ n) ∧
    (∀ n, n ∈ d.removed → ∀ e ∈ d.modifiedSnapshots, e.1 ≠ n) ∧
    d.snapshots.map Prod.fst = snapshots.map Prod.fst := by
  obtain ⟨acc, hacc, hns, hmg, hmd, haddeq, hremeq, _, _⟩ :=
    create_eq_some_elim environment snapshots st d h
  have hfold := fold_diffStep_invariants st
    (modifiedInfo st environment snapshots) snapshots ⟨[], [], [], []⟩ acc hacc
  have hmodpair : ∀ e ∈ d.modifiedSnapshots,
      e.1 ∈ snapshots.map Prod.fst ∧
        e.1 ∉ addedNames st environment snapshots := by
    intro e he
    obtain ⟨a, ha, hfa⟩ :=
      mem_of_optionMapM _ acc.modifiedPairs d.modifiedSnapshots hmd e he
    have hkey := modifiedMap_key acc.remote a e hfa
    rcases hfold.2 a ha with h0 | h0
    · simp at h0
    · rw [hkey]
      exact modifiedInfo_lookup_isSome st environment snapshots a.1 h0
  refine ⟨?_, ?_, ?_, ?_⟩
  · intro n hna hnr
    rw [haddeq, mem_addedNames] at hna
    rw [hremeq, mem_removedNames] at hnr
    exact hna.2 hnr.1
  · intro n hna e he heq
    rw [haddeq] at hna
    exact (hmodpair e he).2 (heq ▸ hna)
  · intro n hnr e he heq
    have h1 := (hmodpair e he).1
    rw [hremeq, mem_removedNames] at hnr
    rw [heq] at h1
    exact hnr.2 h1
  · have hkeys := optionMapM_keys _ (fun e => e.1) Prod.fst
      (mergedMap_key acc.remote) acc.merged d.snapshots hmg
    rw [hkeys, hfold.1]
    simp

theorem adjustVersion_preserves
    (remote : List (String × List SnapshotDataVersion × Nat)) (s s' : Snapshot)
    (h : adjustVersion remote s = some s') :
    s'.name = s.name ∧ s'.fingerprint = s.fingerprint ∧
      s'.previousVersions = s.previousVersions := by
  unfold adjustVersion at h
  rcases hlk : lookup? remote s.name with _ | rv <;>
    rcases hprev : s.previousVersion with _ | prev <;>
    simp only [hlk, hprev] at h
  · cases h; exact ⟨rfl, rfl, rfl⟩
  · cases h; exact ⟨rfl, rfl, rfl⟩
  · cases h; exact ⟨rfl, rfl, rfl⟩
  · by_cases hm : s.dataHashMatches prev = true <;>
      simp only [hm, if_true, if_false, Bool.false_eq_true] at h
    · rcases hlast : rv.1.getLast? with _ | rhead <;> rw [hlast] at h
      · cases h
      · by_cases h1 : (s.previousVersions.map SnapshotDataVersion.version).contains
            rhead.version = true <;>
          simp only [h1, if_true, if_false, Bool.false_eq_true] at h
        · cases h; exact ⟨rfl, rfl, rfl⟩
        · by_cases h2 : (rv.1.map SnapshotDataVersion.version).contains
              prev.version = true <;>
            simp only [h2, if_true, if_false, Bool.false_eq_true] at h
          · cases h; exact ⟨rfl, rfl, rfl⟩
          · cases h; exact ⟨rfl, rfl, rfl⟩
    · cases h; exact ⟨rfl, rfl, rfl⟩

/-- C1: for every new snapshot s produced by ContextDiff.create with a
previous version whose data hash matches (only indirectly modified) and
whose name has a remote indirect-version record: if the remote head
version occurs among the versions of s.previousVersions then s.version
is the local head; otherwise if the local head occurs among the remote
versions then s.version is the remote head; otherwise s.version is the
fresh value (the data portion of the fingerprint), forcing a new
physical table. -/
theorem create_indirect_version_reuse (environment : String)
    (snapshots : List (String × Snapshot)) (st : StateReader) (d : ContextDiff)
    (R : List (String × List SnapshotDataVersion × Nat))
    (hd : ContextDiff.create environment snapshots st = some d)
    (hR : remoteIndirect st environment snapshots = some R)
    (s : Snapshot) (hs : s ∈ d.newSnapshots)
    (prev : SnapshotDataVersion) (hprev : s.previousVersion = some prev)
    (hmatch : s.fingerprint.dataHash = prev.dataHash)
    (rv : List SnapshotDataVersion × Nat) (hrv : lookup? R s.name = some rv)
    (rhead : SnapshotDataVersion) (hhead : rv.1.getLast? = some rhead) :
    (rhead.version ∈ s.previousVersions.map SnapshotDataVersion.version →
      s.version = prev.version) ∧
    (rhead.version ∉ s.previousVersions.map SnapshotDataVersion.version →
      prev.version ∈ rv.1.map SnapshotDataVersion.version →
      s.version = rhead.version) ∧
    (rhead.version ∉ s.previousVersions.map SnapshotDataVersion.version →
      prev.version ∉ rv.1.map SnapshotDataVersion.version →
      s.version = s.fingerprint.dataHash) := by
  obtain ⟨acc, hacc, hns, _, _, _, _, _, _⟩ :=
    create_eq_some_elim environment snapshots st d hd
  have hReq : R = acc.remote := by
    unfold remoteIndirect at hR
    rw [hacc] at hR
    simpa using hR.symm
  subst hReq
  obtain ⟨s₀, hs₀, hadj⟩ :=
    mem_of_optionMapM _ acc.newSnaps d.newSnapshots hns s hs
  obtain ⟨hname, hfp, hpv⟩ := adjustVersion_preserves acc.remote s₀ s hadj
  have hprev₀ : s₀.previousVersion = some prev := by
    unfold Snapshot.previousVersion at hprev ⊢
    rw [hpv] at hprev
    exact hprev
  have hlk₀ : lookup? acc.remote s₀.name = some rv := by rw [hname] at hrv; exact hrv
  have hm₀ : s₀.dataHashMatches prev = true := by
    unfold Snapshot.dataHashMatches
    rw [hfp] at hmatch
    simpa using hmatch
  unfold adjustVersion at hadj
  rw [hlk₀, hprev₀] at hadj
  simp only [hm₀, if_true, hhead] at hadj
  by_cases h1 : rhead.version ∈ s.previousVersions.map SnapshotDataVersion.version
  · have h1c : (s₀.previousVersions.map SnapshotDataVersion.version).contains
        rhead.version = true := by
      rw [← hpv]
      simpa using h1
    rw [if_pos h1c] at hadj
    refine ⟨fun _ => ?_, fun hn => absurd h1 hn, fun hn => absurd h1 hn⟩
    have := congrArg Snapshot.version (Option.some.injEq _ _ ▸ hadj)
    simpa [Snapshot.setVersion] using this.symm
  · have h1c : (s₀.previousVersions.map SnapshotDataVersion.version).contains
        rhead.version = false := by
      rw [← hpv]
      simpa using h1
    rw [h1c] at hadj
    simp only [Bool.false_eq_true, if_false] at hadj
    by_cases h2 : prev.version ∈ rv.1.map SnapshotDataVersion.version
    · have h2c : (rv.1.map SnapshotDataVersion.version).contains prev.version
          = true := by simpa using h2
      rw [if_pos h2c] at hadj
      refine ⟨fun hm => absurd hm h1, fun _ _ => ?_, fun _ hn => absurd h2 hn⟩
      have := congrArg Snapshot.version (Option.some.injEq _ _ ▸ hadj)
      simpa [Snapshot.setVersion] using this.symm
    · have h2c : (rv.1.map SnapshotDataVersion.version).contains prev.version
          = false := by simpa using h2
      rw [h2c] at hadj
      simp only [Bool.false_eq_true, if_false] at hadj
      refine ⟨fun hm => absurd hm h1, fun _ hm => absurd hm h2, fun _ _ => ?_⟩
      have := congrArg Snapshot.version (Option.some.injEq _ _ ▸ hadj)
      rw [hfp]
      simpa [Snapshot.setVersion] using this.symm

theorem forall_mem_of_optionMapM {α β : Type} (f : α → Option β) :
    ∀ (l : List α) (l' : List β), optionMapM f l = some l' →
      ∀ a ∈ l, ∃ b ∈ l', f a = some b := by
  intro l
  induction l with
  | nil => intro l' _ a ha; simp at ha
  | cons x xs ih =>
    intro l' hl a ha
    obtain ⟨y, ys, hy, hys, hl'⟩ := optionMapM_cons_eq_some f x xs l' hl
    subst hl'
    rcases List.mem_cons.mp ha with h | h
    · exact ⟨y, List.mem_cons_self y ys, h ▸ hy⟩
    · obtain ⟨b, hb, hfb⟩ := ih ys hys a h
      exact ⟨b, List.mem_cons_of_mem y hb, hfb⟩

theorem getSnapshot_push_of_isSome (st : StateReader) (xs : List Snapshot)
    (id : SnapshotId) (h : (st.getSnapshot id).isSome) :
    ((st.pushSnapshots xs).getSnapshot id).isSome := by
  unfold StateReader.getSnapshot at h
  unfold StateReader.getSnapshot StateReader.pushSnapshots
  rw [List.find?_append]
  rcases hf : st.snapshotStore.find? (fun s => s.snapshotId == id) with _ | s
  · rw [hf] at h; simp at h
  · simp [hf]

theorem getSnapshot_push_of_mem (st : StateReader) (xs : List Snapshot)
    (id : SnapshotId) (s : Snapshot) (hs : s ∈ xs) (hid : s.snapshotId = id) :
    ((st.pushSnapshots xs).getSnapshot id).isSome := by
  unfold StateReader.getSnapshot StateReader.pushSnapshots
  rw [List.find?_append]
  rcases hf : st.snapshotStore.find? (fun s => s.snapshotId == id) with _ | s'
  · have : (xs.find? (fun s => s.snapshotId == id)).isSome := by
      rw [List.find?_isSome]
      exact ⟨s, hs, by simp [hid]⟩
    rcases hx : xs.find? (fun s => s.snapshotId == id) with _ | s''
    · rw [hx] at this; simp at this
    · simp [hf, hx]
  · simp [hf]

theorem modifiedInfo_push (st : StateReader) (xs : List Snapshot)
    (environment : String) (snapshots : List (String × Snapshot)) :
    modifiedInfo (st.pushSnapshots xs) environment snapshots =
      modifiedInfo st environment snapshots := rfl

theorem diffStep_head_id (st : StateReader)
    (mi : List (String × SnapshotTableInfo)) (acc : DiffAcc)
    (p : String × Snapshot) (acc' : DiffAcc)
    (h : diffStep st mi acc p = some acc') :
    (st.getSnapshot p.2.snapshotId).isSome ∨
      ∃ s, acc'.newSnaps = acc.newSnaps ++ [s] ∧
        s.snapshotId = p.2.snapshotId := by
  unfold diffStep at h
  rcases hex : st.getSnapshot p.2.snapshotId with _ | existing <;>
    simp only [hex] at h
  · rcases hmi : lookup? mi p.1 with _ | minfo <;> simp only [hmi] at h
    · cases h
      exact Or.inr ⟨p.2, rfl, rfl⟩
    · rcases hold : st.getSnapshot minfo.snapshotId with _ | old <;>
        simp only [hold] at h
      · cases h
      · cases h
        exact Or.inr ⟨_, rfl, rfl⟩
  · exact Or.inl (by simp [hex])

theorem fold_diffStep_modified_lookup (st : StateReader)
    (mi : List (String × SnapshotTableInfo)) :
    ∀ (l : List (String × Snapshot)) (acc acc' : DiffAcc),
      optionFoldl (diffStep st mi) acc l = some acc' →
      ∀ p ∈ l, ∀ minfo, lookup? mi p.1 = some minfo →
        (st.getSnapshot minfo.snapshotId).isSome := by
  intro l
  induction l with
  | nil => intro acc acc' _ p hp; simp at hp
  | cons x xs ih =>
    intro acc acc' h p hp minfo hminfo
    obtain ⟨acc₁, h₁, h₂⟩ := optionFoldl_cons_eq_some _ acc x xs acc' h
    rcases List.mem_cons.mp hp with hpx | hpx
    · subst hpx
      unfold diffStep at h₁
      rw [hminfo] at h₁
      rcases hex : st.getSnapshot p.2.snapshotId with _ | existing <;>
        simp only [hex] at h₁ <;>
        (rcases hold : st.getSnapshot minfo.snapshotId with _ | old <;>
          simp only [hold] at h₁)
      · cases h₁
      · simp
      · cases h₁
      · simp
    · exact ih acc₁ acc' h₂ p hpx minfo hminfo

theorem fold_diffStep_ids (st : StateReader)
    (mi : List (String × SnapshotTableInfo)) :
    ∀ (l : List (String × Snapshot)) (acc acc' : DiffAcc),
      optionFoldl (diffStep st mi) acc l = some acc' →
      (∃ t, acc'.newSnaps = acc.newSnaps ++ t) ∧
      ∀ p ∈ l, (st.getSnapshot p.2.snapshotId).isSome ∨
        ∃ s ∈ acc'.newSnaps, s.snapshotId = p.2.snapshotId := by
  intro l
  induction l with
  | nil =>
    intro acc acc' h
    unfold optionFoldl at h
    simp only [Option.some.injEq] at h
    subst h
    exact ⟨⟨[], by simp⟩, fun p hp => by simp at hp⟩
  | cons x xs ih =>
    intro acc acc' h
    obtain ⟨acc₁, h₁, h₂⟩ := optionFoldl_cons_eq_some _ acc x xs acc' h
    obtain ⟨⟨t, ht⟩, hrest⟩ := ih acc₁ acc' h₂
    obtain ⟨_, _, hshape⟩ := diffStep_shape st mi acc x acc₁ h₁
    constructor
    · rcases hshape with hsh | ⟨s, hsh⟩
      · exact ⟨t, by rw [ht, hsh]⟩
      · exact ⟨[s] ++ t, by rw [ht, hsh]; simp⟩
    · intro p hp
      rcases List.mem_cons.mp hp with hpx | hpx
      · subst hpx
        rcases diffStep_head_id st mi acc p acc₁ h₁ with hh | ⟨s, hsn, hsid⟩
        · exact Or.inl hh
        · refine Or.inr ⟨s, ?_, hsid⟩
          rw [ht, hsn]
          simp
      · exact hrest p hpx

theorem fold_diffStep_all_existing (st : StateReader)
    (mi : List (String × SnapshotTableInfo)) :
    ∀ (l : List (String × Snapshot)) (acc : DiffAcc),
      (∀ p ∈ l, (st.getSnapshot p.2.snapshotId).isSome) →
      (∀ p ∈ l, ∀ minfo, lookup? mi p.1 = some minfo →
        (st.getSnapshot minfo.snapshotId).isSome) →
      ∃ acc', optionFoldl (diffStep st mi) acc l = some acc' ∧
        acc'.newSnaps = acc.newSnaps ∧
        (∀ e ∈ acc'.merged, e ∈ acc.merged ∨ e.2.2 = false) ∧
        (∀ e ∈ acc'.modifiedPairs, e ∈ acc.modifiedPairs ∨ e.2.2 = false) := by
  intro l
  induction l with
  | nil =>
    intro acc _ _
    exact ⟨acc, rfl, rfl, fun e he => Or.inl he, fun e he => Or.inl he⟩
  | cons x xs ih =>
    intro acc hall hmod
    have hx := hall x (List.mem_cons_self x xs)
    rcases hex : st.getSnapshot x.2.snapshotId with _ | existing
    · rw [hex] at hx; simp at hx
    · have hstep : ∃ acc₁, diffStep st mi acc x = some acc₁ ∧
          acc₁.newSnaps = acc.newSnaps ∧
          (∀ e ∈ acc₁.merged, e ∈ acc.merged ∨ e.2.2 = false) ∧
          (∀ e ∈ acc₁.modifiedPairs, e ∈ acc.modifiedPairs ∨ e.2.2 = false) := by
        unfold diffStep
        rcases hmi : lookup? mi x.1 with _ | minfo <;> simp only [hex, hmi]
        · refine ⟨_, rfl, rfl, ?_, fun e he => Or.inl he⟩
          intro e he
          rcases List.mem_append.mp he with h | h
          · exact Or.inl h
          · simp only [List.mem_singleton] at h
            subst h
            exact Or.inr rfl
        · have hms := hmod x (List.mem_cons_self x xs) minfo hmi
          rcases hold : st.getSnapshot minfo.snapshotId with _ | old
          · rw [hold] at hms; simp at hms
          · simp only [hold]
            refine ⟨_, rfl, rfl, ?_, ?_⟩
            · intro e he
              rcases List.mem_append.mp he with h | h
              · exact Or.inl h
              · simp only [List.mem_singleton] at h
                subst h
                exact Or.inr rfl
            · intro e he
              rcases List.mem_append.mp he with h | h
              · exact Or.inl h
              · simp only [List.mem_singleton] at h
                subst h
                exact Or.inr rfl
      obtain ⟨acc₁, hstep₁, hnew₁, hmg₁, hmd₁⟩ := hstep
      obtain ⟨acc', hfold, hnew', hmg', hmd'⟩ :=
        ih acc₁ (fun p hp => hall p (List.mem_cons_of_mem x hp))
          (fun p hp => hmod p (List.mem_cons_of_mem x hp))
      refine ⟨acc', ?_, by rw [hnew', hnew₁], ?_, ?_⟩
      · unfold optionFoldl
        rw [hstep₁]
        exact hfold
      · intro e he
        rcases hmg' e he with h | h
        · exact hmg₁ e h
        · exact Or.inr h
      · intro e he
        rcases hmd' e he with h | h
        · exact hmd₁ e h
        · exact Or.inr h

/-- Witness for C2 at the concrete added-model scenario. -/
theorem create_partition_invariants_witness :
    create "e" wSnapsA wStEmpty = some wDiffA ∧
    ((∀ n, n ∈ wDiffA.added → n ∉ wDiffA.removed) ∧
    (∀ n, n ∈ wDiffA.added → ∀ e ∈ wDiffA.modifiedSnapshots, e.1 ≠ n) ∧
    (∀ n, n ∈ wDiffA.removed → ∀ e ∈ wDiffA.modifiedSnapshots, e.1 ≠ n) ∧
    wDiffA.snapshots.map Prod.fst = wSnapsA.map Prod.fst) :=
  ⟨rfl, create_partition_invariants "e" wSnapsA wStEmpty wDiffA rfl⟩

/-- Witness for C1 at the concrete indirect-modification scenario
(diverged histories). -/
theorem create_indirect_version_reuse_witness :
    create "env" wSnaps wSt = some wDiff ∧
    wBnew ∈ wDiff.newSnapshots ∧
    ((22 ∈ wBnew.previousVersions.map SnapshotDataVersion.version →
      wBnew.version = 21) ∧
    (22 ∉ wBnew.previousVersions.map SnapshotDataVersion.version →
      21 ∈ [(⟨20, 20⟩ : SnapshotDataVersion), ⟨20, 22⟩].map
        SnapshotDataVersion.version →
      wBnew.version = 22) ∧
    (22 ∉ wBnew.previousVersions.map SnapshotDataVersion.version →
      21 ∉ [(⟨20, 20⟩ : SnapshotDataVersion), ⟨20, 22⟩].map
        SnapshotDataVersion.version →
      wBnew.version = wBnew.fingerprint.dataHash)) :=
  ⟨rfl, by decide,
    create_indirect_version_reuse "env" wSnaps wSt wDiff wRemote rfl rfl
      wBnew (by decide) ⟨20, 21⟩ rfl rfl (⟨20, 20⟩ :: [⟨20, 22⟩], 5) (by decide)
      ⟨20, 22⟩ rfl⟩

/-- C3: ContextDiff.create is deterministic (two calls on the same
stable inputs return equal diffs), and once the new snapshots of a
first call are persisted, a repeated call with the same inputs finds
every local snapshot already stored and returns an empty new_snapshots
list, so no entries beyond those already persisted are produced. -/
theorem create_idempotent (environment : String)
    (snapshots : List (String × Snapshot)) (st : StateReader) (d : ContextDiff)
    (h : create environment snapshots st = some d) :
    create environment snapshots st = create environment snapshots st ∧
    ∃ d', create environment snapshots (st.pushSnapshots d.newSnapshots) =
        some d' ∧ d'.newSnapshots = [] := by
  refine ⟨rfl, ?_⟩
  obtain ⟨acc, hacc, hns, _, _, _, _, _, _⟩ :=
    create_eq_some_elim environment snapshots st d h
  have hml := fold_diffStep_modified_lookup st
    (modifiedInfo st environment snapshots) snapshots ⟨[], [], [], []⟩ acc hacc
  have hids := fold_diffStep_ids st
    (modifiedInfo st environment snapshots) snapshots ⟨[], [], [], []⟩ acc hacc
  have hall : ∀ p ∈ snapshots,
      ((st.pushSnapshots d.newSnapshots).getSnapshot p.2.snapshotId).isSome := by
    intro p hp
    rcases hids.2 p hp with h0 | ⟨s₀, hs₀, hid⟩
    · exact getSnapshot_push_of_isSome st d.newSnapshots p.2.snapshotId h0
    · obtain ⟨s', hs', hadj⟩ :=
        forall_mem_of_optionMapM _ acc.newSnaps d.newSnapshots hns s₀ hs₀
      obtain ⟨hn, hf, _⟩ := adjustVersion_preserves acc.remote s₀ s' hadj
      refine getSnapshot_push_of_mem st d.newSnapshots p.2.snapshotId s' hs' ?_
      unfold Snapshot.snapshotId at hid ⊢
      rw [hn, hf]
      exact hid
  have hmods : ∀ p ∈ snapshots, ∀ minfo,
      lookup? (modifiedInfo (st.pushSnapshots d.newSnapshots) environment
        snapshots) p.1 = some minfo →
      ((st.pushSnapshots d.newSnapshots).getSnapshot minfo.snapshotId).isSome := by
    intro p hp minfo hminfo
    rw [modifiedInfo_push] at hminfo
    exact getSnapshot_push_of_isSome st d.newSnapshots minfo.snapshotId
      (hml p hp minfo hminfo)
  obtain ⟨acc', hfold', hnew', hmg', hmd'⟩ :=
    fold_diffStep_all_existing (st.pushSnapshots d.newSnapshots)
      (modifiedInfo (st.pushSnapshots d.newSnapshots) environment snapshots)
      snapshots ⟨[], [], [], []⟩ hall hmods
  have hnewnil : acc'.newSnaps = [] := hnew'
  have hmgall : ∀ e ∈ acc'.merged, e.2.2 = false := by
    intro e he
    rcases hmg' e he with h0 | h0
    · simp at h0
    · exact h0
  have hmdall : ∀ e ∈ acc'.modifiedPairs, e.2.2 = false := by
    intro e he
    rcases hmd' e he with h0 | h0
    · simp at h0
    · exact h0
  have hmga := optionMapM_eq_map_of_forall_some
    (fun e => if e.2.2 then
        (adjustVersion acc'.remote e.2.1).map (fun s => (e.1, s))
      else some (e.1, e.2.1))
    (fun e => (e.1, e.2.1)) acc'.merged
    (fun e he => by simp [hmgall e he])
  have hmda := optionMapM_eq_map_of_forall_some
    (fun e => if e.2.2 then
        (adjustVersion acc'.remote e.2.1.1).map (fun s => (e.1, s, e.2.1.2))
      else some (e.1, e.2.1.1, e.2.1.2))
    (fun e => (e.1, e.2.1.1, e.2.1.2)) acc'.modifiedPairs
    (fun e he => by simp [hmdall e he])
  refine ⟨⟨environment,
      addedNames (st.pushSnapshots d.newSnapshots) environment snapshots,
      removedNames (st.pushSnapshots d.newSnapshots) environment snapshots,
      acc'.modifiedPairs.map (fun e => (e.1, e.2.1.1, e.2.1.2)),
      acc'.merged.map (fun e => (e.1, e.2.1)),
      [],
      ((st.pushSnapshots d.newSnapshots).getEnvironment environment).map
        Environment.planId⟩, ?_, rfl⟩
  unfold create
  rw [show pass1 (st.pushSnapshots d.newSnapshots) environment snapshots =
    some acc' from hfold']
  simp only [Option.bind_eq_bind, Option.some_bind]
  rw [hnewnil]
  rw [show optionMapM (adjustVersion acc'.remote) ([] : List Snapshot) =
    some [] from rfl]
  simp only [Option.bind_eq_bind, Option.some_bind]
  rw [hmga]
  simp only [Option.bind_eq_bind, Option.some_bind]
  rw [hmda]
  simp only [Option.bind_eq_bind, Option.some_bind]

/-- Witness for C3 at the concrete indirect-modification scenario. -/
theorem create_idempotent_witness :
    create "env" wSnaps wSt = some wDiff ∧
    (create "env" wSnaps wSt = create "env" wSnaps wSt ∧
      ∃ d', create "env" wSnaps (wSt.pushSnapshots wDiff.newSnapshots) =
          some d' ∧ d'.newSnapshots = []) :=
  ⟨rfl, create_idempotent "env" wSnaps wSt wDiff rfl⟩

theorem heapDiffStep_frame (st : StateReader)
    (mi : List (String × SnapshotTableInfo)) (acc acc₁ : HeapDiffAcc)
    (p : String × Nat) (h : heapDiffStep st mi acc p = some acc₁) :
    acc.heap.length ≤ acc₁.heap.length ∧
    (∀ i, i < acc.heap.length → acc₁.heap[i]? = acc.heap[i]?) ∧
    (acc₁.newRefs = acc.newRefs ∨
      ∃ r, acc₁.newRefs = acc.newRefs ++ [r] ∧ acc.heap.length ≤ r ∧
        r < acc₁.heap.length) := by
  unfold heapDiffStep at h
  rcases hp : acc.heap[p.2]? with _ | snapshot <;> simp only [hp] at h
  · cases h
  · rcases hex : st.getSnapshot snapshot.snapshotId with _ | existing <;>
      simp only [hex] at h
    · rcases hmi : lookup? mi p.1 with _ | minfo <;> simp only [hmi] at h
      · cases h
        refine ⟨by simp, fun i hi => ?_,
          Or.inr ⟨acc.heap.length, rfl, le_refl _, by simp⟩⟩
        rw [List.getElem?_append, if_pos hi]
      · rcases hold : st.getSnapshot minfo.snapshotId with _ | old <;>
          simp only [hold] at h
        · cases h
        · cases h
          refine ⟨?_, fun i hi => ?_,
            Or.inr ⟨acc.heap.length, rfl, le_refl _, ?_⟩⟩
          · simp only [List.length_append, List.length_set, List.length_cons,
              List.length_nil]
            omega
          · have hfirst : i < ((acc.heap ++ [snapshot]).set acc.heap.length
                { snapshot with previousVersions := minfo.allVersions }).length := by
              simp only [List.length_set, List.length_append]
              simp
              omega
            rw [List.getElem?_append, if_pos hfirst,
              List.getElem?_set_ne (by omega), List.getElem?_append, if_pos hi]
          · simp only [List.length_append, List.length_set, List.length_cons,
              List.length_nil]
            omega
    · rcases hmi : lookup? mi p.1 with _ | minfo <;> simp only [hmi] at h
      · cases h
        refine ⟨by simp, fun i hi => ?_, Or.inl rfl⟩
        rw [List.getElem?_append, if_pos hi]
      · rcases hold : st.getSnapshot minfo.snapshotId with _ | old <;>
          simp only [hold] at h
        · cases h
        · cases h
          refine ⟨by simp, fun i hi => ?_, Or.inl rfl⟩
          rw [List.getElem?_append, if_pos hi]

theorem fold_heapDiffStep_frame (st : StateReader)
    (mi : List (String × SnapshotTableInfo)) :
    ∀ (l : List (String × Nat)) (acc acc' : HeapDiffAcc),
      optionFoldl (heapDiffStep st mi) acc l = some acc' →
      acc.heap.length ≤ acc'.heap.length ∧
      (∀ i, i < acc.heap.length → acc'.heap[i]? = acc.heap[i]?) ∧
      (∀ r ∈ acc'.newRefs,
        r ∈ acc.newRefs ∨ (acc.heap.length ≤ r ∧ r < acc'.heap.length)) := by
  intro l
  induction l with
  | nil =>
    intro acc acc' h
    unfold optionFoldl at h
    simp only [Option.some.injEq] at h
    subst h
    exact ⟨le_refl _, fun i _ => rfl, fun r hr => Or.inl hr⟩
  | cons x xs ih =>
    intro acc acc' h
    obtain ⟨acc₁, h₁, h₂⟩ := optionFoldl_cons_eq_some _ acc x xs acc' h
    obtain ⟨hlen₁, hget₁, hrefs₁⟩ := heapDiffStep_frame st mi acc acc₁ x h₁
    obtain ⟨hlen', hget', hrefs'⟩ := ih acc₁ acc' h₂
    refine ⟨le_trans hlen₁ hlen', fun i hi => ?_, fun r hr => ?_⟩
    · rw [hget' i (lt_of_lt_of_le hi hlen₁), hget₁ i hi]
    · rcases hrefs' r hr with h0 | ⟨hge, hlt⟩
      · rcases hrefs₁ with he | ⟨r', he, hge', hlt'⟩
        · exact Or.inl (he ▸ h0)
        · rw [he] at h0
          rcases List.mem_append.mp h0 with h0 | h0
          · exact Or.inl h0
          · simp only [List.mem_singleton] at h0
            subst h0
            exact Or.inr ⟨hge', lt_of_lt_of_le hlt' hlen'⟩
      · exact Or.inr ⟨le_trans hlen₁ hge, hlt⟩

theorem heapAdjustLoop_frame
    (rem : List (String × List SnapshotDataVersion × Nat)) :
    ∀ (refs : List Nat) (hp hp' : List Snapshot) (n : Nat),
      heapAdjustLoop rem hp refs = some hp' →
      (∀ r ∈ refs, n ≤ r) →
      hp'.length = hp.length ∧ ∀ i, i < n → hp'[i]? = hp[i]? := by
  intro refs
  induction refs with
  | nil =>
    intro hp hp' n h _
    unfold heapAdjustLoop at h
    simp only [Option.some.injEq] at h
    subst h
    exact ⟨rfl, fun i _ => rfl⟩
  | cons r rs ih =>
    intro hp hp' n h hge
    unfold heapAdjustLoop at h
    rcases hr : hp[r]? with _ | s <;> simp only [hr] at h
    · cases h
    · rcases hadj : adjustVersion rem s with _ | s' <;> simp only [hadj] at h
      · cases h
      · obtain ⟨hlen, hget⟩ := ih (hp.set r s') hp' n h
          (fun x hx => hge x (List.mem_cons_of_mem r hx))
        refine ⟨by rw [hlen, List.length_set], fun i hi => ?_⟩
        rw [hget i hi, List.getElem?_set_ne]
        have := hge r (List.mem_cons_self r rs)
        omega

/-- C10: the heap-passing rendering of ContextDiff.create never mutates
the Snapshot objects referenced by its snapshots argument: every cell
of the caller heap is unchanged, every reference of new_snapshots
points at a freshly allocated copy, and after create returns each
snapshot in the caller map reads equal to its value before the call. -/
theorem createHeap_frame (environment : String) (heap : List Snapshot)
    (snapshots : List (String × Nat)) (st : StateReader)
    (heap' : List Snapshot) (out : HeapDiffAcc)
    (h : createHeap environment heap snapshots st = some (heap', out)) :
    (∀ i, i < heap.length → heap'[i]? = heap[i]?) ∧
    (∀ r ∈ out.newRefs, heap.length ≤ r) ∧
    (∀ p ∈ snapshots, heap'[p.2]? = heap[p.2]?) := by
  unfold createHeap at h
  simp only [bind, Option.bind_eq_some] at h
  obtain ⟨resolved, hres, acc, hacc, hfin, hloop, heq⟩ := h
  simp only [Option.some.injEq, Prod.mk.injEq] at heq
  obtain ⟨h1, h2⟩ := heq
  subst h1
  subst h2
  obtain ⟨hlen, hget, hrefs⟩ := fold_heapDiffStep_frame st
    (modifiedInfo st environment resolved) snapshots ⟨heap, [], [], [], []⟩
    acc hacc
  have hrefs' : ∀ r ∈ acc.newRefs, heap.length ≤ r := by
    intro r hr
    rcases hrefs r hr with h0 | ⟨hge, _⟩
    · simp at h0
    · exact hge
  obtain ⟨hlen2, hget'⟩ := heapAdjustLoop_frame acc.rem acc.newRefs acc.heap
    hfin heap.length hloop hrefs'
  have hmain : ∀ i, i < heap.length → hfin[i]? = heap[i]? := by
    intro i hi
    rw [hget' i hi]
    exact hget i hi
  refine ⟨hmain, hrefs', fun p hp => ?_⟩
  obtain ⟨b, _, hb⟩ :=
    forall_mem_of_optionMapM _ snapshots resolved hres p hp
  have hlt : p.2 < heap.length := by
    rcases hg : heap[p.2]? with _ | s0
    · rw [hg] at hb; simp at hb
    · by_contra hcon
      rw [List.getElem?_eq_none (by omega)] at hg
      cases hg
  exact hmain p.2 hlt

/-- The final heap of the heap-passing create at the witness input. -/
def wHeapOut : List Snapshot := [wA, wA]

/-- The accumulator of the heap-passing create at the witness input. -/
def wAccOut : HeapDiffAcc := ⟨[wA, wA], [("a", 1)], [], [1], []⟩

/-- Witness for C10 at a concrete one-model heap. -/
theorem createHeap_frame_witness :
    createHeap "e" [wA] [("a", 0)] wStEmpty = some (wHeapOut, wAccOut) ∧
    ((∀ i, i < [wA].length → wHeapOut[i]? = [wA][i]?) ∧
    (∀ r ∈ wAccOut.newRefs, [wA].length ≤ r) ∧
    (∀ p ∈ [("a", 0)], wHeapOut[p.2]? = [wA][p.2]?)) :=
  ⟨rfl, createHeap_frame "e" [wA] [("a", 0)] wStEmpty wHeapOut wAccOut rfl⟩

end ContextDiff

/-! ### Macro evaluator lemmas -/

theorem lookup?_const {α : Type} (l : List (String × α)) (c : α)
    (hall : ∀ p ∈ l, p.2 = c) (k : String) (f : α)
    (h : lookup? l k = some f) : f = c := by
  unfold lookup? at h
  simp only [Option.map_eq_some'] at h
  obtain ⟨p, hp, hsnd⟩ := h
  rw [← hsnd]
  exact hall p (List.mem_of_find?_eq_some hp)

theorem macroRegistry_lookup (k : String)
    (f : List Exp → Except SqlMeshError (Option Exp))
    (h : lookup? macroRegistry k = some f) : f = clauseMacroCall := by
  refine lookup?_const macroRegistry clauseMacroCall ?_ k f h
  intro p hp
  simp only [macroRegistry, List.mem_cons, List.mem_singleton] at hp
  rcases hp with rfl | rfl | rfl | rfl | rfl | hp
  · rfl
  · rfl
  · rfl
  · rfl
  · rfl
  · simp only [List.mem_cons, List.not_mem_nil, or_false] at hp
    rw [hp]

theorem send_ok_some_mem (name : String) (args : List Exp) (x : Exp)
    (h : MacroEvaluator.send name args = .ok (some x)) : x ∈ args := by
  unfold MacroEvaluator.send at h
  rcases hlk : lookup? macroRegistry (normalizeMacroName name) with _ | f <;>
    simp only [hlk] at h
  · cases h
  · have hf := macroRegistry_lookup _ _ hlk
    subst hf
    unfold clauseMacroCall at h
    match args, h with
    | [], h => cases h
    | [c], h => cases h
    | c :: e :: z :: rest, h => cases h
    | [c, e], h =>
      rcases hc : evalCondition c with er | b <;>
        simp only [hc, Except.map] at h
      · cases h
      · cases b
        · simp at h
        · simp only [if_true, Except.ok.injEq, Option.some.injEq] at h
          rw [← h]
          exact List.mem_cons_of_mem c (List.mem_cons_self e [])

theorem evaluate_macroFunc_ok (locals : Locals) (name : String)
    (args : List Exp) (l' : Locals) (out : Option Exp)
    (h : MacroEvaluator.evaluate locals (.macroFunc name args) = .ok (l', out)) :
    MacroEvaluator.send name args = .ok out ∧ l' = locals := by
  simp only [MacroEvaluator.evaluate] at h
  by_cases hc : containsColTabList args = true
  · rw [if_pos hc] at h
    rcases hs : MacroEvaluator.send name args with er | r <;> rw [hs] at h
    · simp [Except.map] at h
    · simp only [Except.map, Except.ok.injEq, Prod.mk.injEq] at h
      exact ⟨by rw [← h.2], h.1.symm⟩
  · rw [if_neg hc] at h
    rcases hs : MacroEvaluator.send name args with er | r <;> rw [hs] at h
    · cases h
    · simp only [Except.ok.injEq, Prod.mk.injEq] at h
      exact ⟨by rw [← h.2], h.1.symm⟩

theorem noMacroVarListB_iff (l : List Exp) :
    noMacroVarListB l = true ↔ ∀ x ∈ l, noMacroVarB x = true := by
  induction l with
  | nil => simp [noMacroVarListB]
  | cons x xs ih => simp [noMacroVarListB, Bool.and_eq_true, ih]

theorem macroFreeExceptDefListB_iff (l : List Exp) :
    macroFreeExceptDefListB l = true ↔
      ∀ x ∈ l, macroFreeExceptDefB x = true := by
  induction l with
  | nil => simp [macroFreeExceptDefListB]
  | cons x xs ih => simp [macroFreeExceptDefListB, Bool.and_eq_true, ih]

theorem lookup?_mem_value {α : Type} (l : List (String × α)) (k : String)
    (v : α) (h : lookup? l k = some v) : ∃ p ∈ l, p.2 = v := by
  unfold lookup? at h
  simp only [Option.map_eq_some'] at h
  obtain ⟨p, hp, hsnd⟩ := h
  exact ⟨p, List.mem_of_find?_eq_some hp, hsnd⟩

mutual

theorem substExp_noVar (locals : Locals)
    (hl : ∀ p ∈ locals, noMacroVarB p.2 = true) :
    ∀ e e', substExp locals e = .ok e' → noMacroVarB e' = true
  | .macroVar n, e', h => by
    unfold substExp at h
    rcases hk : lookup? locals n with _ | v <;> simp only [hk] at h
    · cases h
    · cases h
      obtain ⟨p, hp, hv⟩ := lookup?_mem_value locals n _ hk
      rw [← hv]
      exact hl p hp
  | .boolean b, e', h => by unfold substExp at h; cases h; rfl
  | .numLit v, e', h => by unfold substExp at h; cases h; rfl
  | .strLit s, e', h => by unfold substExp at h; cases h; rfl
  | .ident s, e', h => by unfold substExp at h; cases h; rfl
  | .column s, e', h => by unfold substExp at h; cases h; rfl
  | .table s, e', h => by unfold substExp at h; cases h; rfl
  | .aliasE e n, e', h => by
    unfold substExp at h
    simp only [bind, Except.bind] at h
    rcases h1 : substExp locals e with er | y <;> simp only [h1] at h
    · cases h
    · cases h
      simpa [noMacroVarB] using substExp_noVar locals hl e y h1
  | .castE e t, e', h => by
    unfold substExp at h
    simp only [bind, Except.bind] at h
    rcases h1 : substExp locals e with er | y <;> simp only [h1] at h
    · cases h
    · cases h
      simpa [noMacroVarB] using substExp_noVar locals hl e y h1
  | .between e lo hi, e', h => by
    unfold substExp at h
    simp only [bind, Except.bind] at h
    rcases h1 : substExp locals e with er | y1 <;> simp only [h1] at h
    · cases h
    · rcases h2 : substExp locals lo with er | y2 <;> simp only [h2] at h
      · cases h
      · rcases h3 : substExp locals hi with er | y3 <;> simp only [h3] at h
        · cases h
        · cases h
          simp only [noMacroVarB, Bool.and_eq_true]
          exact ⟨⟨substExp_noVar locals hl e y1 h1,
            substExp_noVar locals hl lo y2 h2⟩,
            substExp_noVar locals hl hi y3 h3⟩
  | .andE a b, e', h => by
    unfold substExp at h
    simp only [bind, Except.bind] at h
    rcases h1 : substExp locals a with er | y1 <;> simp only [h1] at h
    · cases h
    · rcases h2 : substExp locals b with er | y2 <;> simp only [h2] at h
      · cases h
      · cases h
        simp only [noMacroVarB, Bool.and_eq_true]
        exact ⟨substExp_noVar locals hl a y1 h1, substExp_noVar locals hl b y2 h2⟩
  | .gt a b, e', h => by
    unfold substExp at h
    simp only [bind, Except.bind] at h
    rcases h1 : substExp locals a with er | y1 <;> simp only [h1] at h
    · cases h
    · rcases h2 : substExp locals b with er | y2 <;> simp only [h2] at h
      · cases h
      · cases h
        simp only [noMacroVarB, Bool.and_eq_true]
        exact ⟨substExp_noVar locals hl a y1 h1, substExp_noVar locals hl b y2 h2⟩
  | .whereClause e, e', h => by
    unfold substExp at h
    simp only [bind, Except.bind] at h
    rcases h1 : substExp locals e with er | y <;> simp only [h1] at h
    · cases h
    · cases h
      simpa [noMacroVarB] using substExp_noVar locals hl e y h1
  | .groupClause es, e', h => by
    unfold substExp at h
    simp only [bind, Except.bind] at h
    rcases h1 : substList locals es with er | ys <;> simp only [h1] at h
    · cases h
    · cases h
      simpa [noMacroVarB] using substList_noVar locals hl es ys h1
  | .havingClause e, e', h => by
    unfold substExp at h
    simp only [bind, Except.bind] at h
    rcases h1 : substExp locals e with er | y <;> simp only [h1] at h
    · cases h
    · cases h
      simpa [noMacroVarB] using substExp_noVar locals hl e y h1
  | .orderClause es, e', h => by
    unfold substExp at h
    simp only [bind, Except.bind] at h
    rcases h1 : substList locals es with er | ys <;> simp only [h1] at h
    · cases h
    · cases h
      simpa [noMacroVarB] using substList_noVar locals hl es ys h1
  | .joinClause e, e', h => by
    unfold substExp at h
    simp only [bind, Except.bind] at h
    rcases h1 : substExp locals e with er | y <;> simp only [h1] at h
    · cases h
    · cases h
      simpa [noMacroVarB] using substExp_noVar locals hl e y h1
  | .withClause es, e', h => by
    unfold substExp at h
    simp only [bind, Except.bind] at h
    rcases h1 : substList locals es with er | ys <;> simp only [h1] at h
    · cases h
    · cases h
      simpa [noMacroVarB] using substList_noVar locals hl es ys h1
  | .subquery q n, e', h => by
    unfold substExp at h
    simp only [bind, Except.bind] at h
    rcases h1 : substExp locals q with er | y <;> simp only [h1] at h
    · cases h
    · cases h
      simpa [noMacroVarB] using substExp_noVar locals hl q y h1
  | .unionE a b, e', h => by
    unfold substExp at h
    simp only [bind, Except.bind] at h
    rcases h1 : substExp locals a with er | y1 <;> simp only [h1] at h
    · cases h
    · rcases h2 : substExp locals b with er | y2 <;> simp only [h2] at h
      · cases h
      · cases h
        simp only [noMacroVarB, Bool.and_eq_true]
        exact ⟨substExp_noVar locals hl a y1 h1, substExp_noVar locals hl b y2 h2⟩
  | .selectE ps ft w g hv o, e', h => by
    unfold substExp at h
    simp only [bind, Except.bind] at h
    rcases h1 : substList locals ps with er | ps' <;> simp only [h1] at h
    · cases h
    · rcases h2 : substOpt locals ft with er | ft' <;> simp only [h2] at h
      · cases h
      · rcases h3 : substOpt locals w with er | w' <;> simp only [h3] at h
        · cases h
        · rcases h4 : substOpt locals g with er | g' <;> simp only [h4] at h
          · cases h
          · rcases h5 : substOpt locals hv with er | hv' <;> simp only [h5] at h
            · cases h
            · rcases h6 : substOpt locals o with er | o' <;> simp only [h6] at h
              · cases h
              · cases h
                simp only [noMacroVarB, Bool.and_eq_true]
                exact ⟨⟨⟨⟨⟨substList_noVar locals hl ps ps' h1,
                  substOpt_noVar locals hl ft ft' h2⟩,
                  substOpt_noVar locals hl w w' h3⟩,
                  substOpt_noVar locals hl g g' h4⟩,
                  substOpt_noVar locals hl hv hv' h5⟩,
                  substOpt_noVar locals hl o o' h6⟩
  | .macroFunc n args, e', h => by
    unfold substExp at h
    simp only [bind, Except.bind] at h
    rcases h1 : substList locals args with er | ys <;> simp only [h1] at h
    · cases h
    · cases h
      simpa [noMacroVarB] using substList_noVar locals hl args ys h1
  | .macroDef n e, e', h => by
    unfold substExp at h
    simp only [bind, Except.bind] at h
    rcases h1 : substExp locals e with er | y <;> simp only [h1] at h
    · cases h
    · cases h
      simpa [noMacroVarB] using substExp_noVar locals hl e y h1

theorem substList_noVar (locals : Locals)
    (hl : ∀ p ∈ locals, noMacroVarB p.2 = true) :
    ∀ es es', substList locals es = .ok es' → noMacroVarListB es' = true
  | [], es', h => by unfold substList at h; cases h; rfl
  | x :: xs, es', h => by
    unfold substList at h
    simp only [bind, Except.bind] at h
    rcases h1 : substExp locals x with er | y <;> simp only [h1] at h
    · cases h
    · rcases h2 : substList locals xs with er | ys <;> simp only [h2] at h
      · cases h
      · cases h
        simp only [noMacroVarListB, Bool.and_eq_true]
        exact ⟨substExp_noVar locals hl x y h1, substList_noVar locals hl xs ys h2⟩

theorem substOpt_noVar (locals : Locals)
    (hl : ∀ p ∈ locals, noMacroVarB p.2 = true) :
    ∀ o o', substOpt locals o = .ok o' → noMacroVarOptB o' = true
  | none, o', h => by unfold substOpt at h; cases h; rfl
  | some e, o', h => by
    unfold substOpt at h
    simp only [bind, Except.bind] at h
    rcases h1 : substExp locals e with er | y <;> simp only [h1] at h
    · cases h
    · cases h
      simpa [noMacroVarOptB] using substExp_noVar locals hl e y h1

end

mutual

theorem evalMacros_clean :
    ∀ (locals : Locals) (e : Exp) (l' : Locals) (out : Option Exp),
      noMacroVarB e = true → evalMacros locals e = .ok (l', out) →
      ∀ x, out = some x →
        noMacroVarB x = true ∧ macroFreeExceptDefB x = true
  | locals, .boolean b, l', out, _, h => by
    unfold evalMacros at h
    cases h
    intro x hx
    cases hx
    exact ⟨rfl, rfl⟩
  | locals, .numLit v, l', out, _, h => by
    unfold evalMacros at h
    cases h
    intro x hx
    cases hx
    exact ⟨rfl, rfl⟩
  | locals, .strLit s, l', out, _, h => by
    unfold evalMacros at h
    cases h
    intro x hx
    cases hx
    exact ⟨rfl, rfl⟩
  | locals, .ident s, l', out, _, h => by
    unfold evalMacros at h
    cases h
    intro x hx
    cases hx
    exact ⟨rfl, rfl⟩
  | locals, .column s, l', out, _, h => by
    unfold evalMacros at h
    cases h
    intro x hx
    cases hx
    exact ⟨rfl, rfl⟩
  | locals, .table s, l', out, _, h => by
    unfold evalMacros at h
    cases h
    intro x hx
    cases hx
    exact ⟨rfl, rfl⟩
  | locals, .macroVar n, l', out, hnv, h => by
    simp [noMacroVarB] at hnv
  | locals, .aliasE e n, l', out, hnv, h => by
    unfold evalMacros at h
    simp only [bind, Except.bind] at h
    rcases h1 : evalMacros locals e with er | ⟨l₁, e1⟩ <;> simp only [h1] at h
    · cases h
    · rcases e1 with _ | e1
      · cases h
      · cases h
        intro x hx
        cases hx
        have hc := evalMacros_clean locals e l' (some e1)
          (by simpa [noMacroVarB] using hnv) h1 e1 rfl
        simp only [noMacroVarB, macroFreeExceptDefB]
        exact hc
  | locals, .castE e t, l', out, hnv, h => by
    unfold evalMacros at h
    simp only [bind, Except.bind] at h
    rcases h1 : evalMacros locals e with er | ⟨l₁, e1⟩ <;> simp only [h1] at h
    · cases h
    · rcases e1 with _ | e1
      · cases h
      · cases h
        intro x hx
        cases hx
        have hc := evalMacros_clean locals e l' (some e1)
          (by simpa [noMacroVarB] using hnv) h1 e1 rfl
        simp only [noMacroVarB, macroFreeExceptDefB]
        exact hc
  | locals, .whereClause e, l', out, hnv, h => by
    unfold evalMacros at h
    simp only [bind, Except.bind] at h
    rcases h1 : evalMacros locals e with er | ⟨l₁, e1⟩ <;> simp only [h1] at h
    · cases h
    · rcases e1 with _ | e1
      · cases h
      · cases h
        intro x hx
        cases hx
        have hc := evalMacros_clean locals e l' (some e1)
          (by simpa [noMacroVarB] using hnv) h1 e1 rfl
        simp only [noMacroVarB, macroFreeExceptDefB]
        exact hc
  | locals, .havingClause e, l', out, hnv, h => by
    unfold evalMacros at h
    simp only [bind, Except.bind] at h
    rcases h1 : evalMacros locals e with er | ⟨l₁, e1⟩ <;> simp only [h1] at h
    · cases h
    · rcases e1 with _ | e1
      · cases h
      · cases h
        intro x hx
        cases hx
        have hc := evalMacros_clean locals e l' (some e1)
          (by simpa [noMacroVarB] using hnv) h1 e1 rfl
        simp only [noMacroVarB, macroFreeExceptDefB]
        exact hc
  | locals, .joinClause e, l', out, hnv, h => by
    unfold evalMacros at h
    simp only [bind, Except.bind] at h
    rcases h1 : evalMacros locals e with er | ⟨l₁, e1⟩ <;> simp only [h1] at h
    · cases h
    · rcases e1 with _ | e1
      · cases h
      · cases h
        intro x hx
        cases hx
        have hc := evalMacros_clean locals e l' (some e1)
          (by simpa [noMacroVarB] using hnv) h1 e1 rfl
        simp only [noMacroVarB, macroFreeExceptDefB]
        exact hc
  | locals, .subquery q n, l', out, hnv, h => by
    unfold evalMacros at h
    simp only [bind, Except.bind] at h
    rcases h1 : evalMacros locals q with er | ⟨l₁, q1⟩ <;> simp only [h1] at h
    · cases h
    · rcases q1 with _ | q1
      · cases h
      · cases h
        intro x hx
        cases hx
        have hc := evalMacros_clean locals q l' (some q1)
          (by simpa [noMacroVarB] using hnv) h1 q1 rfl
        simp only [noMacroVarB, macroFreeExceptDefB]
        exact hc
  | locals, .andE a b, l', out, hnv, h => by
    unfold evalMacros at h
    simp only [bind, Except.bind] at h
    simp only [noMacroVarB, Bool.and_eq_true] at hnv
    rcases h1 : evalMacros locals a with er | ⟨l₁, a1⟩ <;> simp only [h1] at h
    · cases h
    · rcases h2 : evalMacros l₁ b with er | ⟨l₂, b1⟩ <;> simp only [h2] at h
      · cases h
      · rcases a1 with _ | a1 <;> rcases b1 with _ | b1
        · cases h
        · cases h
        · cases h
        · cases h
          intro x hx
          cases hx
          have hca := evalMacros_clean locals a l₁ (some a1) hnv.1 h1 a1 rfl
          have hcb := evalMacros_clean l₁ b l' (some b1) hnv.2 h2 b1 rfl
          simp only [noMacroVarB, macroFreeExceptDefB, Bool.and_eq_true]
          exact ⟨⟨hca.1, hcb.1⟩, hca.2, hcb.2⟩
  | locals, .gt a b, l', out, hnv, h => by
    unfold evalMacros at h
    simp only [bind, Except.bind] at h
    simp only [noMacroVarB, Bool.and_eq_true] at hnv
    rcases h1 : evalMacros locals a with er | ⟨l₁, a1⟩ <;> simp only [h1] at h
    · cases h
    · rcases h2 : evalMacros l₁ b with er | ⟨l₂, b1⟩ <;> simp only [h2] at h
      · cases h
      · rcases a1 with _ | a1 <;> rcases b1 with _ | b1
        · cases h
        · cases h
        · cases h
        · cases h
          intro x hx
          cases hx
          have hca := evalMacros_clean locals a l₁ (some a1) hnv.1 h1 a1 rfl
          have hcb := evalMacros_clean l₁ b l' (some b1) hnv.2 h2 b1 rfl
          simp only [noMacroVarB, macroFreeExceptDefB, Bool.and_eq_true]
          exact ⟨⟨hca.1, hcb.1⟩, hca.2, hcb.2⟩
  | locals, .unionE a b, l', out, hnv, h => by
    unfold evalMacros at h
    simp only [bind, Except.bind] at h
    simp only [noMacroVarB, Bool.and_eq_true] at hnv
    rcases h1 : evalMacros locals a with er | ⟨l₁, a1⟩ <;> simp only [h1] at h
    · cases h
    · rcases h2 : evalMacros l₁ b with er | ⟨l₂, b1⟩ <;> simp only [h2] at h
      · cases h
      · rcases a1 with _ | a1 <;> rcases b1 with _ | b1
        · cases h
        · cases h
        · cases h
        · cases h
          intro x hx
          cases hx
          have hca := evalMacros_clean locals a l₁ (some a1) hnv.1 h1 a1 rfl
          have hcb := evalMacros_clean l₁ b l' (some b1) hnv.2 h2 b1 rfl
          simp only [noMacroVarB, macroFreeExceptDefB, Bool.and_eq_true]
          exact ⟨⟨hca.1, hcb.1⟩, hca.2, hcb.2⟩
  | locals, .between e lo hi, l', out, hnv, h => by
    unfold evalMacros at h
    simp only [bind, Except.bind] at h
    simp only [noMacroVarB, Bool.and_eq_true] at hnv
    rcases h1 : evalMacros locals e with er | ⟨l₁, e1⟩ <;> simp only [h1] at h
    · cases h
    · rcases h2 : evalMacros l₁ lo with er | ⟨l₂, lo1⟩ <;> simp only [h2] at h
      · cases h
      · rcases h3 : evalMacros l₂ hi with er | ⟨l₃, hi1⟩ <;> simp only [h3] at h
        · cases h
        · rcases e1 with _ | e1 <;> rcases lo1 with _ | lo1 <;>
            rcases hi1 with _ | hi1
          · cases h
          · cases h
          · cases h
          · cases h
          · cases h
          · cases h
          · cases h
          · cases h
            intro x hx
            cases hx
            have hc1 := evalMacros_clean locals e l₁ (some e1) hnv.1.1 h1 e1 rfl
            have hc2 := evalMacros_clean l₁ lo l₂ (some lo1) hnv.1.2 h2 lo1 rfl
            have hc3 := evalMacros_clean l₂ hi l' (some hi1) hnv.2 h3 hi1 rfl
            simp only [noMacroVarB, macroFreeExceptDefB, Bool.and_eq_true]
            exact ⟨⟨⟨hc1.1, hc2.1⟩, hc3.1⟩, ⟨hc1.2, hc2.2⟩, hc3.2⟩
  | locals, .groupClause es, l', out, hnv, h => by
    unfold evalMacros at h
    simp only [bind, Except.bind] at h
    rcases h1 : evalMacrosList locals es with er | ⟨l₁, es1⟩ <;>
      simp only [h1] at h
    · cases h
    · cases h
      intro x hx
      cases hx
      have hc := evalMacrosList_clean locals es l' es1
        (by simpa [noMacroVarB] using hnv) h1
      simp only [noMacroVarB, macroFreeExceptDefB]
      exact hc
  | locals, .orderClause es, l', out, hnv, h => by
    unfold evalMacros at h
    simp only [bind, Except.bind] at h
    rcases h1 : evalMacrosList locals es with er | ⟨l₁, es1⟩ <;>
      simp only [h1] at h
    · cases h
    · cases h
      intro x hx
      cases hx
      have hc := evalMacrosList_clean locals es l' es1
        (by simpa [noMacroVarB] using hnv) h1
      simp only [noMacroVarB, macroFreeExceptDefB]
      exact hc
  | locals, .withClause es, l', out, hnv, h => by
    unfold evalMacros at h
    simp only [bind, Except.bind] at h
    rcases h1 : evalMacrosList locals es with er | ⟨l₁, es1⟩ <;>
      simp only [h1] at h
    · cases h
    · cases h
      intro x hx
      cases hx
      have hc := evalMacrosList_clean locals es l' es1
        (by simpa [noMacroVarB] using hnv) h1
      simp only [noMacroVarB, macroFreeExceptDefB]
      exact hc
  | locals, .selectE ps ft w g hv o, l', out, hnv, h => by
    unfold evalMacros at h
    simp only [bind, Except.bind] at h
    simp only [noMacroVarB, Bool.and_eq_true] at hnv
    rcases h1 : evalMacrosList locals ps with er | ⟨l₁, ps1⟩ <;>
      simp only [h1] at h
    · cases h
    · rcases h2 : evalMacrosOpt l₁ ft with er | ⟨l₂, ft1⟩ <;> simp only [h2] at h
      · cases h
      · rcases h3 : evalMacrosOpt l₂ w with er | ⟨l₃, w1⟩ <;> simp only [h3] at h
        · cases h
        · rcases h4 : evalMacrosOpt l₃ g with er | ⟨l₄, g1⟩ <;>
            simp only [h4] at h
          · cases h
          · rcases h5 : evalMacrosOpt l₄ hv with er | ⟨l₅, hv1⟩ <;>
              simp only [h5] at h
            · cases h
            · rcases h6 : evalMacrosOpt l₅ o with er | ⟨l₆, o1⟩ <;>
                simp only [h6] at h
              · cases h
              · cases h
                intro x hx
                cases hx
                have hc1 := evalMacrosList_clean locals ps l₁ ps1
                  hnv.1.1.1.1.1 h1
                have hc2 := evalMacrosOpt_clean l₁ ft l₂ ft1 hnv.1.1.1.1.2 h2
                have hc3 := evalMacrosOpt_clean l₂ w l₃ w1 hnv.1.1.1.2 h3
                have hc4 := evalMacrosOpt_clean l₃ g l₄ g1 hnv.1.1.2 h4
                have hc5 := evalMacrosOpt_clean l₄ hv l₅ hv1 hnv.1.2 h5
                have hc6 := evalMacrosOpt_clean l₅ o l' o1 hnv.2 h6
                simp only [noMacroVarB, macroFreeExceptDefB, Bool.and_eq_true]
                exact ⟨⟨⟨⟨⟨⟨hc1.1, hc2.1⟩, hc3.1⟩, hc4.1⟩, hc5.1⟩, hc6.1⟩,
                  ⟨⟨⟨⟨⟨hc1.2, hc2.2⟩, hc3.2⟩, hc4.2⟩, hc5.2⟩, hc6.2⟩⟩
  | locals, .macroFunc name args, l', out, hnv, h => by
    unfold evalMacros at h
    simp only [bind, Except.bind] at h
    simp only [noMacroVarB] at hnv
    rcases h1 : evalMacrosList locals args with er | ⟨l₁, args'⟩ <;>
      simp only [h1] at h
    · cases h
    · obtain ⟨hsend, _⟩ := evaluate_macroFunc_ok l₁ name args' l' out h
      intro x hx
      subst hx
      have hmem := send_ok_some_mem name args' x hsend
      have hclean := evalMacrosList_clean locals args l₁ args' hnv h1
      exact ⟨(noMacroVarListB_iff args').mp hclean.1 x hmem,
        (macroFreeExceptDefListB_iff args').mp hclean.2 x hmem⟩
  | locals, .macroDef n e, l', out, hnv, h => by
    unfold evalMacros at h
    simp only [bind, Except.bind] at h
    simp only [noMacroVarB] at hnv
    rcases h1 : evalMacros locals e with er | ⟨l₁, e1⟩ <;> simp only [h1] at h
    · cases h
    · rcases e1 with _ | e1
      · cases h
      · simp only [MacroEvaluator.evaluate] at h
        cases h
        intro x hx
        cases hx
        have hc := evalMacros_clean locals e l₁ (some e1) hnv h1 e1 rfl
        simp only [noMacroVarB, macroFreeExceptDefB]
        exact hc

theorem evalMacrosList_clean :
    ∀ (locals : Locals) (es : List Exp) (l' : Locals) (es' : List Exp),
      noMacroVarListB es = true → evalMacrosList locals es = .ok (l', es') →
      noMacroVarListB es' = true ∧ macroFreeExceptDefListB es' = true
  | locals, [], l', es', _, h => by
    unfold evalMacrosList at h
    cases h
    exact ⟨rfl, rfl⟩
  | locals, x :: xs, l', es', hnv, h => by
    unfold evalMacrosList at h
    simp only [bind, Except.bind] at h
    simp only [noMacroVarListB, Bool.and_eq_true] at hnv
    rcases h1 : evalMacros locals x with er | ⟨l₁, x1⟩ <;> simp only [h1] at h
    · cases h
    · rcases h2 : evalMacrosList l₁ xs with er | ⟨l₂, xs1⟩ <;>
        simp only [h2] at h
      · cases h
      · have hxs := evalMacrosList_clean l₁ xs l₂ xs1 hnv.2 h2
        rcases x1 with _ | x1
        · cases h
          exact hxs
        · cases h
          have hx := evalMacros_clean locals x l₁ (some x1) hnv.1 h1 x1 rfl
          simp only [noMacroVarListB, macroFreeExceptDefListB, Bool.and_eq_true]
          exact ⟨⟨hx.1, hxs.1⟩, hx.2, hxs.2⟩

theorem evalMacrosOpt_clean :
    ∀ (locals : Locals) (o : Option Exp) (l' : Locals) (o' : Option Exp),
      noMacroVarOptB o = true → evalMacrosOpt locals o = .ok (l', o') →
      noMacroVarOptB o' = true ∧ macroFreeExceptDefOptB o' = true
  | locals, none, l', o', _, h => by
    unfold evalMacrosOpt at h
    cases h
    exact ⟨rfl, rfl⟩
  | locals, some e, l', o', hnv, h => by
    unfold evalMacrosOpt at h
    rcases o' with _ | x
    · exact ⟨rfl, rfl⟩
    · have hc := evalMacros_clean locals e l' (some x)
        (by simpa [noMacroVarOptB] using hnv) h x rfl
      simpa [noMacroVarOptB, macroFreeExceptDefOptB] using hc

end

/-! ### Claim theorems on the macro evaluator -/

/-- C4 counterexample: evaluating the unknown macro invocation
@FOO(x) raises the base SQLMeshError (not a MacroEvalError) and its
message carries the unnormalized name FOO without the @ prefix, so it
differs from the message the claim states both in kind and in text. -/
theorem unknown_macro_error_counterexample :
    MacroEvaluator.evaluate [] (.macroFunc "FOO" [.column "x"]) =
      .error (.sqlmeshError ("Macro " ++ squote ++ "FOO" ++ squote ++
        " does not exist.")) ∧
    (∀ msg msg', SqlMeshError.sqlmeshError msg ≠
      SqlMeshError.macroEvalError msg') ∧
    "Macro " ++ squote ++ "FOO" ++ squote ++ " does not exist." ≠
      "Macro " ++ squote ++ "@FOO" ++ squote ++ " does not exist" :=
  ⟨rfl, fun _ _ => by simp, by decide⟩

/-- C4 (amended): an invocation of a macro name missing from the
registry fails: send raises the base SQLMeshError whose message quotes
the unnormalized name with no @ prefix; evaluate propagates that error
unchanged when the invocation contains a column or table, and otherwise
(generated-code evaluation) wraps the failure in a MacroEvalError with
a generic diagnostic message. -/
theorem unknown_macro_error (locals : Locals) (name : String)
    (args : List Exp)
    (h : lookup? macroRegistry (normalizeMacroName name) = none) :
    MacroEvaluator.send name args = .error (.sqlmeshError
      ("Macro " ++ squote ++ name ++ squote ++ " does not exist.")) ∧
    (containsColTabList args = true →
      MacroEvaluator.evaluate locals (.macroFunc name args) =
        .error (.sqlmeshError
          ("Macro " ++ squote ++ name ++ squote ++ " does not exist."))) ∧
    (containsColTabList args = false →
      MacroEvaluator.evaluate locals (.macroFunc name args) =
        .error (.macroEvalError "Error trying to eval macro.")) := by
  have hsend : MacroEvaluator.send name args = .error (.sqlmeshError
      ("Macro " ++ squote ++ name ++ squote ++ " does not exist.")) := by
    unfold MacroEvaluator.send
    rw [h]
  refine ⟨hsend, fun hc => ?_, fun hc => ?_⟩
  · simp only [MacroEvaluator.evaluate]
    rw [if_pos hc, hsend]
    rfl
  · simp only [MacroEvaluator.evaluate]
    rw [if_neg (by simp [hc]), hsend]

/-- Witness for C4 at the concrete unknown invocation @FOO(x). -/
theorem unknown_macro_error_witness :
    lookup? macroRegistry (normalizeMacroName "FOO") = none ∧
    (MacroEvaluator.send "FOO" [.column "x"] = .error (.sqlmeshError
      ("Macro " ++ squote ++ "FOO" ++ squote ++ " does not exist.")) ∧
    (containsColTabList [.column "x"] = true →
      MacroEvaluator.evaluate [] (.macroFunc "FOO" [.column "x"]) =
        .error (.sqlmeshError
          ("Macro " ++ squote ++ "FOO" ++ squote ++ " does not exist."))) ∧
    (containsColTabList [.column "x"] = false →
      MacroEvaluator.evaluate [] (.macroFunc "FOO" [.column "x"]) =
        .error (.macroEvalError "Error trying to eval macro."))) :=
  ⟨rfl, unknown_macro_error [] "FOO" [.column "x"] rfl⟩

/-- C5 counterexample, two failure modes of macro-node elimination.
First, @DEF(a, 1) binds a but evaluates to itself, not to nothing, and
the transformed tree of a query containing it still contains the
MacroDef node.  Second, macro-variable substitution (macros.py lines
121 to 125) inserts a binding verbatim and never descends into the
replacement, so a binding whose value is itself the macro variable y
leaves a MacroVar y in the transformed output even though y is bound
in locals: the output is not macro-variable free. -/
theorem macroDef_not_removed_counterexample :
    (MacroEvaluator.evaluate [] (.macroDef "a" (.numLit "1")) =
      .ok ([("a", .numLit "1")], some (.macroDef "a" (.numLit "1"))) ∧
    some (Exp.macroDef "a" (.numLit "1")) ≠ (none : Option Exp) ∧
    MacroEvaluator.transform []
        (.selectE [.macroDef "a" (.numLit "1")] (some (.table "t"))
          none none none none) =
      .ok ([("a", .numLit "1")],
        some (.selectE [.macroDef "a" (.numLit "1")] (some (.table "t"))
          none none none none)) ∧
    containsMacroDefB (.selectE [.macroDef "a" (.numLit "1")]
      (some (.table "t")) none none none none) = true) ∧
    (MacroEvaluator.transform
        [("x", Exp.macroVar "y"), ("y", Exp.numLit "1")]
        (.selectE [.macroVar "x"] (some (.table "t")) none none none none) =
      .ok ([("x", Exp.macroVar "y"), ("y", Exp.numLit "1")],
        some (.selectE [.macroVar "y"] (some (.table "t"))
          none none none none)) ∧
    lookup? [("x", Exp.macroVar "y"), ("y", Exp.numLit "1")] "y" =
      some (Exp.numLit "1") ∧
    noMacroVarB (.selectE [.macroVar "y"] (some (.table "t"))
      none none none none) = false) :=
  ⟨⟨rfl, by simp, rfl, rfl⟩, rfl, rfl, rfl⟩

/-- C5 (amended): @DEF(n, e) binds locals[n] = e but the MacroDef node
evaluates to itself and remains in the tree; and for every query, when
the bound macro variables are themselves free of macro variables (the
hypothesis both counterexample modes force), the transformed output
contains no MacroVar node and no MacroFunc node other than MacroDef
nodes. -/
theorem macroDef_binding_and_elimination (locals : Locals) (n : String)
    (e : Exp) (q : Exp)
    (hl : ∀ p ∈ locals, noMacroVarB p.2 = true)
    (locals' : Locals) (out : Exp)
    (ht : MacroEvaluator.transform locals q = .ok (locals', some out)) :
    MacroEvaluator.evaluate locals (.macroDef n e) =
      .ok (insertLocal locals n e, some (.macroDef n e)) ∧
    noMacroVarB out = true ∧ macroFreeExceptDefB out = true := by
  refine ⟨rfl, ?_⟩
  unfold MacroEvaluator.transform at ht
  simp only [bind, Except.bind] at ht
  rcases hs : substExp locals q with er | q₁ <;> simp only [hs] at ht
  · cases ht
  · have h1 := substExp_noVar locals hl q q₁ hs
    exact evalMacros_clean locals q₁ locals' (some out) h1 ht out rfl

/-- Witness for C5 at the macro-elimination example query. -/
theorem macroDef_binding_and_elimination_witness :
    (∀ p ∈ ([("x", Exp.numLit "1")] : Locals), noMacroVarB p.2 = true) ∧
    MacroEvaluator.transform [("x", Exp.numLit "1")] wElimQuery =
      .ok ([("x", Exp.numLit "1")], some wElimResult) ∧
    (MacroEvaluator.evaluate [("x", Exp.numLit "1")]
        (.macroDef "d" (.numLit "2")) =
      .ok (insertLocal [("x", Exp.numLit "1")] "d" (.numLit "2"),
        some (.macroDef "d" (.numLit "2"))) ∧
    noMacroVarB wElimResult = true ∧ macroFreeExceptDefB wElimResult = true) :=
  ⟨by decide, rfl,
    macroDef_binding_and_elimination [("x", Exp.numLit "1")] "d"
      (.numLit "2") wElimQuery (by decide) [("x", Exp.numLit "1")]
      wElimResult rfl⟩

/-- C8: each clause macro of WITH, JOIN, WHERE, GROUP_BY, HAVING and
ORDER_BY applied to a condition and a native clause returns the clause
when the condition evaluates truthy and deletes it otherwise; in
particular SELECT x FROM t with a true where-macro renders to
SELECT x FROM t WHERE x > 1, and with a false condition to
SELECT x FROM t. -/
theorem clause_macro_conditional (name : String)
    (hname : name ∈ clauseMacroNames) (c e : Exp) :
    (evalCondition c = .ok true →
      MacroEvaluator.send name [c, e] = .ok (some e)) ∧
    (evalCondition c = .ok false →
      MacroEvaluator.send name [c, e] = .ok none) ∧
    MacroEvaluator.transform [] whereTrueQuery =
      .ok ([], some whereTrueResult) ∧
    MacroEvaluator.transform [] whereFalseQuery =
      .ok ([], some whereFalseResult) := by
  have hlk : lookup? macroRegistry (normalizeMacroName name) =
      some clauseMacroCall := by
    simp only [clauseMacroNames, List.mem_cons, List.mem_singleton,
      List.not_mem_nil, or_false] at hname
    rcases hname with rfl | rfl | rfl | rfl | rfl | rfl
    · rfl
    · rfl
    · rfl
    · rfl
    · rfl
    · rfl
  refine ⟨fun hc => ?_, fun hc => ?_, rfl, rfl⟩
  · unfold MacroEvaluator.send
    rw [hlk]
    unfold clauseMacroCall
    simp [hc, Except.map]
  · unfold MacroEvaluator.send
    rw [hlk]
    unfold clauseMacroCall
    simp [hc, Except.map]

/-- Witness for C8 at the WHERE clause macro with a true condition. -/
theorem clause_macro_conditional_witness :
    "WHERE" ∈ clauseMacroNames ∧
    ((evalCondition (.boolean true) = .ok true →
      MacroEvaluator.send "WHERE" [.boolean true, .whereClause
        (.gt (.column "x") (.numLit "1"))] =
        .ok (some (.whereClause (.gt (.column "x") (.numLit "1"))))) ∧
    (evalCondition (.boolean true) = .ok false →
      MacroEvaluator.send "WHERE" [.boolean true, .whereClause
        (.gt (.column "x") (.numLit "1"))] = .ok none) ∧
    MacroEvaluator.transform [] whereTrueQuery =
      .ok ([], some whereTrueResult) ∧
    MacroEvaluator.transform [] whereFalseQuery =
      .ok ([], some whereFalseResult)) :=
  ⟨by decide,
    clause_macro_conditional "WHERE" (by decide) (.boolean true)
      (.whereClause (.gt (.column "x") (.numLit "1")))⟩

/-! ### C6: time filtering places the BETWEEN into WHERE or HAVING -/

theorem whereAnd_contains (w : Option Exp) (b₀ low high : Exp) :
    ∃ ex, whereAnd w (.between b₀ low high) = some (.whereClause ex) ∧
      ContainsBetweenOn b₀ low high ex := by
  rcases w with _ | e
  · exact ⟨.between b₀ low high, rfl, rfl, rfl, rfl⟩
  · cases e <;> first
      | exact ⟨_, rfl, Or.inr ⟨rfl, rfl, rfl⟩⟩
      | exact ⟨_, rfl, rfl, rfl, rfl⟩

theorem havingAnd_contains (hv : Option Exp) (b₀ low high : Exp) :
    ∃ ex, havingAnd hv (.between b₀ low high) = some (.havingClause ex) ∧
      ContainsBetweenOn b₀ low high ex := by
  rcases hv with _ | e
  · exact ⟨.between b₀ low high, rfl, rfl, rfl, rfl⟩
  · cases e <;> first
      | exact ⟨_, rfl, Or.inr ⟨rfl, rfl, rfl⟩⟩
      | exact ⟨_, rfl, rfl, rfl, rfl⟩

theorem filterTimeColumn_pred (m : Model) (tc : TimeColumn)
    (htc : m.timeColumn = some tc) (start finish : Date) (low high : Exp)
    (hlow : m.convertToTimeColumn start = some low)
    (hhigh : m.convertToTimeColumn finish = some high) :
    ∀ sel sel', m.filterTimeColumn sel start finish = some sel' →
      SelectHasTimePredicate tc.column low high sel' ∧
      outerSelects sel' = [sel'] := by
  intro sel sel' h
  cases sel
  case selectE ps ft w g hv o =>
    simp only [Model.filterTimeColumn, htc, hlow, hhigh] at h
    rcases hfind : List.find? (fun s => aliasOrName s == tc.column) ps
        with _ | proj <;> simp only [hfind] at h
    · cases h
    · rcases g with _ | ge
      · cases h
        obtain ⟨ex, hex, hcb⟩ := whereAnd_contains w (stripAlias proj) low high
        exact ⟨⟨proj, hfind, ex, hex, hcb⟩, rfl⟩
      · cases h
        obtain ⟨ex, hex, hcb⟩ := havingAnd_contains hv (stripAlias proj) low high
        exact ⟨⟨proj, hfind, ex, hex, hcb⟩, rfl⟩
  all_goals (unfold Model.filterTimeColumn at h; cases h)

/-- C6: for an incremental-by-time model with a declared time column
whose projection is present, the rendering filter ANDs the predicate
col BETWEEN convert(start) AND convert(end) into a select's WHERE
clause when it has no GROUP BY, and into HAVING otherwise; the
conversion respects the declared format and the declared column type:
string literal for text, numeric literal for numeric, cast of the
string literal for temporal. -/
theorem filter_time_column_placement (m : Model) (tc : TimeColumn)
    (htc : m.timeColumn = some tc)
    (ps : List Exp) (ft w g hv o : Option Exp)
    (start finish : Date) (low high : Exp)
    (hlow : m.convertToTimeColumn start = some low)
    (hhigh : m.convertToTimeColumn finish = some high)
    (proj : Exp)
    (hproj : List.find? (fun s => aliasOrName s == tc.column) ps = some proj) :
    (g = none →
      m.filterTimeColumn (.selectE ps ft w g hv o) start finish =
        some (.selectE ps ft
          (whereAnd w (.between (stripAlias proj) low high)) g hv o)) ∧
    (∀ ge, g = some ge →
      m.filterTimeColumn (.selectE ps ft w g hv o) start finish =
        some (.selectE ps ft w g
          (havingAnd hv (.between (stripAlias proj) low high)) o)) ∧
    (∀ (d : Date) (fmt : String), tc.format = some fmt →
      (lookup? m.columns tc.column = some SqlType.text →
        m.convertToTimeColumn d = some (.strLit (strftime d fmt.data))) ∧
      (lookup? m.columns tc.column = some SqlType.numeric →
        m.convertToTimeColumn d = some (.numLit (strftime d fmt.data))) ∧
      (lookup? m.columns tc.column = some SqlType.temporal →
        m.convertToTimeColumn d =
          some (.castE (.strLit (strftime d fmt.data)) SqlType.temporal))) := by
  refine ⟨fun hg => ?_, fun ge hg => ?_, fun d fmt hfmt => ?_⟩
  · subst hg
    simp only [Model.filterTimeColumn, htc, hlow, hhigh, hproj]
  · subst hg
    simp only [Model.filterTimeColumn, htc, hlow, hhigh, hproj]
  · refine ⟨fun hty => ?_, fun hty => ?_, fun hty => ?_⟩ <;>
      simp only [Model.convertToTimeColumn, htc, hfmt, hty]

/-- Witness for C6 at the spec example: text time column ds with
format yielding 20210101, predicate landing in WHERE. -/
theorem filter_time_column_placement_witness :
    wTimeModel.filterTimeColumn wTimeSelect wDate wDate = some wTimeResult ∧
    wTimeModel.convertToTimeColumn wDate = some (.strLit "20210101") := by
  have h := filter_time_column_placement wTimeModel wTimeTc rfl
    [.column "ds"] (some (.table "t")) none none none none
    wDate wDate (.strLit "20210101") (.strLit "20210101") rfl rfl
    (.column "ds") rfl
  exact ⟨h.1 rfl, (h.2.2 wDate "%Y%m%d" rfl).1 rfl⟩

/-! ### C7: the pruned walk filters only outermost selects -/

mutual

theorem filterOuterSelects_pred (m : Model) (tc : TimeColumn)
    (htc : m.timeColumn = some tc) (start finish : Date) (low high : Exp)
    (hlow : m.convertToTimeColumn start = some low)
    (hhigh : m.convertToTimeColumn finish = some high) :
    ∀ q q', filterOuterSelects m start finish q = some q' →
      ∀ s ∈ outerSelects q', SelectHasTimePredicate tc.column low high s
  | .selectE ps ft w g hv o, q', h => by
    unfold filterOuterSelects at h
    obtain ⟨hpred, houter⟩ := filterTimeColumn_pred m tc htc start finish
      low high hlow hhigh (.selectE ps ft w g hv o) q' h
    intro s hs
    rw [houter] at hs
    simp only [List.mem_singleton] at hs
    subst hs
    exact hpred
  | .boolean b, q', h => by
    unfold filterOuterSelects at h
    cases h
    intro s hs
    simp [outerSelects] at hs
  | .numLit v, q', h => by
    unfold filterOuterSelects at h
    cases h
    intro s hs
    simp [outerSelects] at hs
  | .strLit s0, q', h => by
    unfold filterOuterSelects at h
    cases h
    intro s hs
    simp [outerSelects] at hs
  | .ident s0, q', h => by
    unfold filterOuterSelects at h
    cases h
    intro s hs
    simp [outerSelects] at hs
  | .column s0, q', h => by
    unfold filterOuterSelects at h
    cases h
    intro s hs
    simp [outerSelects] at hs
  | .table s0, q', h => by
    unfold filterOuterSelects at h
    cases h
    intro s hs
    simp [outerSelects] at hs
  | .macroVar n, q', h => by
    unfold filterOuterSelects at h
    cases h
    intro s hs
    simp [outerSelects] at hs
  | .aliasE e n, q', h => by
    unfold filterOuterSelects at h
    simp only [bind, Option.bind_eq_some] at h
    obtain ⟨y, h1, h2⟩ := h
    cases h2
    intro s hs
    simp only [outerSelects] at hs
    exact filterOuterSelects_pred m tc htc start finish low high hlow hhigh
      e y h1 s hs
  | .castE e t, q', h => by
    unfold filterOuterSelects at h
    simp only [bind, Option.bind_eq_some] at h
    obtain ⟨y, h1, h2⟩ := h
    cases h2
    intro s hs
    simp only [outerSelects] at hs
    exact filterOuterSelects_pred m tc htc start finish low high hlow hhigh
      e y h1 s hs
  | .between e lo hi, q', h => by
    unfold filterOuterSelects at h
    simp only [bind, Option.bind_eq_some] at h
    obtain ⟨y1, h1, y2, h2, y3, h3, h4⟩ := h
    cases h4
    intro s hs
    simp only [outerSelects, List.mem_append] at hs
    rcases hs with (hs | hs) | hs
    · exact filterOuterSelects_pred m tc htc start finish low high hlow hhigh
        e y1 h1 s hs
    · exact filterOuterSelects_pred m tc htc start finish low high hlow hhigh
        lo y2 h2 s hs
    · exact filterOuterSelects_pred m tc htc start finish low high hlow hhigh
        hi y3 h3 s hs
  | .andE a b, q', h => by
    unfold filterOuterSelects at h
    simp only [bind, Option.bind_eq_some] at h
    obtain ⟨y1, h1, y2, h2, h3⟩ := h
    cases h3
    intro s hs
    simp only [outerSelects, List.mem_append] at hs
    rcases hs with hs | hs
    · exact filterOuterSelects_pred m tc htc start finish low high hlow hhigh
        a y1 h1 s hs
    · exact filterOuterSelects_pred m tc htc start finish low high hlow hhigh
        b y2 h2 s hs
  | .gt a b, q', h => by
    unfold filterOuterSelects at h
    simp only [bind, Option.bind_eq_some] at h
    obtain ⟨y1, h1, y2, h2, h3⟩ := h
    cases h3
    intro s hs
    simp only [outerSelects, List.mem_append] at hs
    rcases hs with hs | hs
    · exact filterOuterSelects_pred m tc htc start finish low high hlow hhigh
        a y1 h1 s hs
    · exact filterOuterSelects_pred m tc htc start finish low high hlow hhigh
        b y2 h2 s hs
  | .whereClause e, q', h => by
    unfold filterOuterSelects at h
    simp only [bind, Option.bind_eq_some] at h
    obtain ⟨y, h1, h2⟩ := h
    cases h2
    intro s hs
    simp only [outerSelects] at hs
    exact filterOuterSelects_pred m tc htc start finish low high hlow hhigh
      e y h1 s hs
  | .groupClause es, q', h => by
    unfold filterOuterSelects at h
    simp only [bind, Option.bind_eq_some] at h
    obtain ⟨ys, h1, h2⟩ := h
    cases h2
    intro s hs
    simp only [outerSelects] at hs
    exact filterOuterSelectsList_pred m tc htc start finish low high hlow hhigh
      es ys h1 s hs
  | .havingClause e, q', h => by
    unfold filterOuterSelects at h
    simp only [bind, Option.bind_eq_some] at h
    obtain ⟨y, h1, h2⟩ := h
    cases h2
    intro s hs
    simp only [outerSelects] at hs
    exact filterOuterSelects_pred m tc htc start finish low high hlow hhigh
      e y h1 s hs
  | .orderClause es, q', h => by
    unfold filterOuterSelects at h
    simp only [bind, Option.bind_eq_some] at h
    obtain ⟨ys, h1, h2⟩ := h
    cases h2
    intro s hs
    simp only [outerSelects] at hs
    exact filterOuterSelectsList_pred m tc htc start finish low high hlow hhigh
      es ys h1 s hs
  | .joinClause e, q', h => by
    unfold filterOuterSelects at h
    simp only [bind, Option.bind_eq_some] at h
    obtain ⟨y, h1, h2⟩ := h
    cases h2
    intro s hs
    simp only [outerSelects] at hs
    exact filterOuterSelects_pred m tc htc start finish low high hlow hhigh
      e y h1 s hs
  | .withClause es, q', h => by
    unfold filterOuterSelects at h
    simp only [bind, Option.bind_eq_some] at h
    obtain ⟨ys, h1, h2⟩ := h
    cases h2
    intro s hs
    simp only [outerSelects] at hs
    exact filterOuterSelectsList_pred m tc htc start finish low high hlow hhigh
      es ys h1 s hs
  | .subquery q0 n, q', h => by
    unfold filterOuterSelects at h
    simp only [bind, Option.bind_eq_some] at h
    obtain ⟨y, h1, h2⟩ := h
    cases h2
    intro s hs
    simp only [outerSelects] at hs
    exact filterOuterSelects_pred m tc htc start finish low high hlow hhigh
      q0 y h1 s hs
  | .unionE l r, q', h => by
    unfold filterOuterSelects at h
    simp only [bind, Option.bind_eq_some] at h
    obtain ⟨y1, h1, y2, h2, h3⟩ := h
    cases h3
    intro s hs
    simp only [outerSelects, List.mem_append] at hs
    rcases hs with hs | hs
    · exact filterOuterSelects_pred m tc htc start finish low high hlow hhigh
        l y1 h1 s hs
    · exact filterOuterSelects_pred m tc htc start finish low high hlow hhigh
        r y2 h2 s hs
  | .macroFunc n args, q', h => by
    unfold filterOuterSelects at h
    simp only [bind, Option.bind_eq_some] at h
    obtain ⟨ys, h1, h2⟩ := h
    cases h2
    intro s hs
    simp only [outerSelects] at hs
    exact filterOuterSelectsList_pred m tc htc start finish low high hlow hhigh
      args ys h1 s hs
  | .macroDef n e, q', h => by
    unfold filterOuterSelects at h
    simp only [bind, Option.bind_eq_some] at h
    obtain ⟨y, h1, h2⟩ := h
    cases h2
    intro s hs
    simp only [outerSelects] at hs
    exact filterOuterSelects_pred m tc htc start finish low high hlow hhigh
      e y h1 s hs

theorem filterOuterSelectsList_pred (m : Model) (tc : TimeColumn)
    (htc : m.timeColumn = some tc) (start finish : Date) (low high : Exp)
    (hlow : m.convertToTimeColumn start = some low)
    (hhigh : m.convertToTimeColumn finish = some high) :
    ∀ es ys, filterOuterSelectsList m start finish es = some ys →
      ∀ s ∈ outerSelectsList ys, SelectHasTimePredicate tc.column low high s
  | [], ys, h => by
    unfold filterOuterSelectsList at h
    cases h
    intro s hs
    simp [outerSelectsList] at hs
  | x :: xs, ys, h => by
    unfold filterOuterSelectsList at h
    simp only [bind, Option.bind_eq_some] at h
    obtain ⟨y, h1, ys2, h2, h3⟩ := h
    cases h3
    intro s hs
    simp only [outerSelectsList, List.mem_append] at hs
    rcases hs with hs | hs
    · exact filterOuterSelects_pred m tc htc start finish low high hlow hhigh
        x y h1 s hs
    · exact filterOuterSelectsList_pred m tc htc start finish low high hlow hhigh
        xs ys2 h2 s hs

end

/-- C7 counterexample: rendering an incremental model over a query
whose FROM reads a subquery leaves the inner select untouched, with no
WHERE and no HAVING at all, because the walk of render_query prunes at
Select nodes and never descends into one. -/
theorem render_query_nested_select_counterexample :
    Model.renderFilterStage wTimeModel wNestedQuery wDate wDate =
      some wNestedResult ∧
    wInner ∈ allSelects wNestedResult ∧
    selectWhereArg wInner = none ∧
    selectHavingArg wInner = none := by
  refine ⟨rfl, ?_, rfl, rfl⟩
  have he : allSelects wNestedResult = [wNestedResult, wInner] := rfl
  rw [he]
  exact List.mem_cons_of_mem _ (List.mem_cons_self _ _)

/-- C7: (amended) for an incremental-by-time model with a time column,
every OUTERMOST select of the query produced by the rendering filter
stage restricts the time column to the window, in WHERE when it has no
GROUP BY and in HAVING otherwise; selects nested inside another select
are not visited by the pruned walk. -/
theorem render_query_outer_time_filter (m : Model) (tc : TimeColumn)
    (htc : m.timeColumn = some tc) (hkind : m.kind = .incremental)
    (start finish : Date) (low high : Exp)
    (hlow : m.convertToTimeColumn start = some low)
    (hhigh : m.convertToTimeColumn finish = some high)
    (q q' : Exp) (h : m.renderFilterStage q start finish = some q') :
    ∀ s ∈ outerSelects q', SelectHasTimePredicate tc.column low high s := by
  unfold Model.renderFilterStage at h
  rw [hkind, if_pos rfl] at h
  exact filterOuterSelects_pred m tc htc start finish low high hlow hhigh q q' h

/-- Witness for C7 at the nested witness query: the outer select of the
output carries the BETWEEN over ds. -/
theorem render_query_outer_time_filter_witness :
    SelectHasTimePredicate "ds" (.strLit "20210101") (.strLit "20210101")
      wNestedResult :=
  render_query_outer_time_filter wTimeModel wTimeTc rfl rfl wDate wDate
    (.strLit "20210101") (.strLit "20210101") rfl rfl
    wNestedQuery wNestedResult rfl wNestedResult
    (show wNestedResult ∈ [wNestedResult] from List.mem_cons_self _ _)

/-! ### C9: interval unit thresholds and normalized cron strings -/

/-- C9 counterexample: ten sampled fires one minute apart give the
MINUTE unit, and normalized_cron returns the string of five stars, not
the claimed slash form. -/
theorem normalized_cron_minute_counterexample :
    ModelMeta.intervalUnit wMinuteSamples = some IntervalUnit.minute ∧
    ModelMeta.normalizedCron wMinuteSamples = some "* * * * *" ∧
    ("* * * * *" : String) ≠ "*/* */* * * *" :=
  ⟨rfl, rfl, by decide⟩

/-- C9: (amended) the interval unit is DAY when the minimum gap over
the ten sampled next fires is at least 86400 seconds, HOUR when at
least 3600, MINUTE otherwise, and normalized_cron returns the five-star
string for MINUTE, 0 followed by four stars for HOUR, and 0 0 followed
by three stars for DAY. -/
theorem interval_unit_normalized_cron (samples : List Nat) (mg : Nat)
    (hlen : samples.length = 10) (hmg : minGap samples = some mg) :
    (86400 ≤ mg → ModelMeta.intervalUnit samples = some IntervalUnit.day ∧
      ModelMeta.normalizedCron samples = some "0 0 * * *") ∧
    (3600 ≤ mg → mg < 86400 →
      ModelMeta.intervalUnit samples = some IntervalUnit.hour ∧
      ModelMeta.normalizedCron samples = some "0 * * * *") ∧
    (mg < 3600 → ModelMeta.intervalUnit samples = some IntervalUnit.minute ∧
      ModelMeta.normalizedCron samples = some "* * * * *") := by
  have h1 : ModelMeta.intervalUnit samples =
      some (if 86400 ≤ mg then IntervalUnit.day
        else if 3600 ≤ mg then IntervalUnit.hour else IntervalUnit.minute) := by
    unfold ModelMeta.intervalUnit
    rw [hmg]
  have h2 : ∀ u, ModelMeta.intervalUnit samples = some u →
      ModelMeta.normalizedCron samples = some (match u with
        | IntervalUnit.minute => "* * * * *"
        | IntervalUnit.hour => "0 * * * *"
        | IntervalUnit.day => "0 0 * * *") := by
    intro u hu
    unfold ModelMeta.normalizedCron
    rw [hu]
    rfl
  refine ⟨fun ha => ?_, fun ha hb => ?_, fun ha => ?_⟩
  · rw [if_pos ha] at h1
    exact ⟨h1, h2 _ h1⟩
  · rw [if_neg (by omega), if_pos ha] at h1
    exact ⟨h1, h2 _ h1⟩
  · rw [if_neg (by omega), if_neg (by omega)] at h1
    exact ⟨h1, h2 _ h1⟩

/-- Witness for C9 at ten samples one hour apart. -/
theorem interval_unit_normalized_cron_witness :
    ModelMeta.intervalUnit wHourSamples = some IntervalUnit.hour ∧
    ModelMeta.normalizedCron wHourSamples = some "0 * * * *" :=
  (interval_unit_normalized_cron wHourSamples 3600 (by decide)
    (by decide)).2.1 (by decide) (by decide)

end SqlMesh
